import Mathlib

/-!
# Verification of the flight-path-optimizer core

A shallow embedding, in exact real arithmetic, of the route-optimization core
of the repository (`flight_utils.py`, `wind_fetcher.py`, `optimize.py`):
spherical geometry primitives, the corridor lattice builder, the wind-adjusted
corridor graph builder (with its per-run wind cache), endpoint selection and
the A* heuristic.  Python floats are idealized as real numbers; Python
exceptions that the claims exercise are modelled with `Except`.  External
collaborators (the HTTP wind provider, the airport resolver, map rendering,
and the `networkx` A* routine) are modelled only at their interface, exactly
as the specification scopes them.
-/

open Real

noncomputable section

/-- Coordinate pair `(latitude_deg, longitude_deg)`, as used throughout the
source. -/
abbrev Pt : Type := ℝ × ℝ

/-- Node identifier `(sliceIndex, lateralIndex)`, the `(i, j)` tuples used by
`build_graph`. -/
abbrev NodeId : Type := ℕ × ℕ

/-- The Python exceptions that the embedded fragment of `optimize.py` can
raise.  `invalidConfig` is the distinct "invalid configuration" error the
specification postulates; it is included so statements can discern it from
the errors the code actually produces. -/
inductive Err : Type
  | invalidConfig : Err
  | indexError : Err
  | zeroDivision : Err
  | astarFailed : Err
deriving DecidableEq

/-- A wind observation: `{'windspeed_kmh': speed, 'winddirection_deg': dir}`. -/
structure Wind : Type where
  speed : ℝ
  dir : ℝ

/-- `R_EARTH_KM = 6371.0088` from `flight_utils.py`. -/
def R_EARTH_KM : ℝ := 6371.0088

/-- `deg2rad` from `flight_utils.py`. -/
def deg2rad (d : ℝ) : ℝ := d * π / 180

/-- `rad2deg` from `flight_utils.py`. -/
def rad2deg (r : ℝ) : ℝ := r * 180 / π

/-- Python's float modulo `a % b`: `a - b * ⌊a / b⌋` (the result has the sign
of `b`; the source only uses positive moduli). -/
def pymod (a b : ℝ) : ℝ := a - b * ⌊a / b⌋

/-- Python's `math.atan2 (y, x)` in exact arithmetic. -/
def atan2 (y x : ℝ) : ℝ :=
  if 0 < x then arctan (y / x)
  else if x < 0 then
    (if 0 ≤ y then arctan (y / x) + π else arctan (y / x) - π)
  else
    (if 0 < y then π / 2 else if y < 0 then -(π / 2) else 0)

/-- Python's `round(x, 4)` idealized over the reals: scale by `10^4` and round
half-to-even. -/
def pyround4 (x : ℝ) : ℝ :=
  let y : ℝ := x * 10000
  let f : ℤ := ⌊y⌋
  let r : ℝ := y - f
  (if r < 1/2 then (f : ℝ) else if 1/2 < r then (f : ℝ) + 1
   else if Even f then (f : ℝ) else (f : ℝ) + 1) / 10000

/-- The haversine quantity `a` computed by both `haversine_km` and
`great_circle_points`, as a function of the radian coordinates. -/
def havA (phi1 lam1 phi2 lam2 : ℝ) : ℝ :=
  sin ((phi2 - phi1) / 2) ^ 2 + cos phi1 * cos phi2 * sin ((lam2 - lam1) / 2) ^ 2

/-- `haversine_km` from `flight_utils.py`:
`c = 2 * atan2(sqrt(a), sqrt(1-a)); return R_EARTH_KM * c`. -/
def haversine_km (lat1 lon1 lat2 lon2 : ℝ) : ℝ :=
  let a := havA (deg2rad lat1) (deg2rad lon1) (deg2rad lat2) (deg2rad lon2)
  R_EARTH_KM * (2 * atan2 (Real.sqrt a) (Real.sqrt (1 - a)))

/-- `bearing_between` from `flight_utils.py`. -/
def bearing_between (lat1 lon1 lat2 lon2 : ℝ) : ℝ :=
  let phi1 := deg2rad lat1
  let phi2 := deg2rad lat2
  let lam1 := deg2rad lon1
  let lam2 := deg2rad lon2
  let y := sin (lam2 - lam1) * cos phi2
  let x := cos phi1 * sin phi2 - sin phi1 * cos phi2 * cos (lam2 - lam1)
  pymod (rad2deg (atan2 y x) + 360) 360

/-- `destination_point` from `flight_utils.py`; the returned longitude is
`((lon2 + 180) % 360) - 180`. -/
def destination_point (lat lon bearing_deg distance_km : ℝ) : Pt :=
  let δ := distance_km / R_EARTH_KM
  let phi1 := deg2rad lat
  let lam1 := deg2rad lon
  let θ := deg2rad bearing_deg
  let phi2 := arcsin (sin phi1 * cos δ + cos phi1 * sin δ * cos θ)
  let lam2 := lam1 + atan2 (sin θ * sin δ * cos phi1) (cos δ - sin phi1 * sin phi2)
  (rad2deg phi2, pymod (rad2deg lam2 + 180) 360 - 180)

/-- The central-angle value `δ = 2 * asin(min(1, sqrt(a)))` computed by
`great_circle_points`. -/
def gcDelta (lat1 lon1 lat2 lon2 : ℝ) : ℝ :=
  2 * arcsin (min 1 (Real.sqrt
    (havA (deg2rad lat1) (deg2rad lon1) (deg2rad lat2) (deg2rad lon2))))

/-- One interpolated point of `great_circle_points` (the body of its loop),
for interpolation fraction `f` and central angle `δ`. -/
def gcPoint (phi1 lam1 phi2 lam2 dlt f : ℝ) : Pt :=
  let A := sin ((1 - f) * dlt) / sin dlt
  let B := sin (f * dlt) / sin dlt
  let x := A * cos phi1 * cos lam1 + B * cos phi2 * cos lam2
  let y := A * cos phi1 * sin lam1 + B * cos phi2 * sin lam2
  let z := A * sin phi1 + B * sin phi2
  (rad2deg (atan2 z (Real.sqrt (x * x + y * y))), rad2deg (atan2 y x))

/-- `great_circle_points` from `flight_utils.py`.  When `δ == 0` it returns
`n_points + 1` copies of the first point.  Otherwise the loop computes
`f = i / n_points`, which in Python raises `ZeroDivisionError` when
`n_points = 0`. -/
def great_circle_points (lat1 lon1 lat2 lon2 : ℝ) (n_points : ℕ) :
    Except Err (List Pt) :=
  let δ := gcDelta lat1 lon1 lat2 lon2
  if δ = 0 then .ok (List.replicate (n_points + 1) (lat1, lon1))
  else if n_points = 0 then .error .zeroDivision
  else .ok ((List.range (n_points + 1)).map fun (i : ℕ) =>
    gcPoint (deg2rad lat1) (deg2rad lon1) (deg2rad lat2) (deg2rad lon2) δ
      ((i : ℝ) / (n_points : ℝ)))

/-- The lateral node placed by `build_corridor_slices` for one offset:
the segment midpoint itself for offset `0`, otherwise a perpendicular
`destination_point` projection (`bearing + 90` to the right for positive
offsets, `bearing - 90` to the left for negative ones). -/
def corridorNode (midlat midlon brg off : ℝ) : Pt :=
  if off = 0 then (midlat, midlon)
  else
    destination_point midlat midlon
      (if 0 < off then pymod (brg + 90) 360 else pymod (brg - 90) 360) |off|

/-- `build_corridor_slices` from `optimize.py`: sample `slices + 1`
great-circle points, then for each of the `slices` consecutive segments place
one node per lateral offset around the segment midpoint. -/
def build_corridor_slices (lat1 lon1 lat2 lon2 : ℝ) (slices : ℕ)
    (lateral_offsets_km : List ℝ) : Except Err (List (List Pt)) :=
  (great_circle_points lat1 lon1 lat2 lon2 slices).map fun gc =>
    (List.range (gc.length - 1)).map fun i =>
      let a := gc.getD i (0, 0)
      let b := gc.getD (i + 1) (0, 0)
      let midlat := (a.1 + b.1) / 2
      let midlon := (a.2 + b.2) / 2
      let brg := bearing_between a.1 a.2 b.1 b.2
      lateral_offsets_km.map fun off => corridorNode midlat midlon brg off

/-- `tailwind_component_kmh` from `wind_fetcher.py`. -/
def tailwind_component_kmh (windspeed_kmh winddirection_from_deg
    aircraft_bearing_deg : ℝ) : ℝ :=
  let wind_to := pymod (winddirection_from_deg + 180) 360
  let diff := pymod (wind_to - aircraft_bearing_deg + 180) 360 - 180
  windspeed_kmh * cos (deg2rad diff)

/-- The external wind provider (`get_current_wind`): given the (unrounded)
midpoint coordinates it either returns a wind observation or fails
(`none` models any raised exception: network error, malformed response,
missing field). -/
def Provider : Type := ℝ → ℝ → Option Wind

/-- Python's `enumerate`, starting at index `n`. -/
def enumFromN (n : ℕ) : List α → List (ℕ × α)
  | [] => []
  | a :: as => (n, a) :: enumFromN (n + 1) as

/-- The ordered list of `(i, (j, p1), (k, p2))` tuples visited by the edge
loops of `build_graph`: `i` ranges over consecutive slice pairs, `j, p1` over
`enumerate(slices_nodes[i])` and `k, p2` over `enumerate(slices_nodes[i+1])`. -/
def edgeTriples (slices : List (List Pt)) : List (ℕ × (ℕ × Pt) × (ℕ × Pt)) :=
  (List.range (slices.length - 1)).flatMap fun i =>
    (enumFromN 0 (slices.getD i [])).flatMap fun jp =>
      (enumFromN 0 (slices.getD (i + 1) [])).map fun kp => (i, jp, kp)

/-- A directed corridor edge with its `weight` (travel time, hours) and
`distance_km` attributes. -/
structure Edge : Type where
  src : NodeId
  dst : NodeId
  weight : ℝ
  distKm : ℝ

/-- The mutable state of one `build_graph` run: the `wind_cache` dictionary
(keyed by rounded midpoint coordinates) plus the list of coordinates at which
`get_current_wind` was actually invoked (instrumentation used to reason about
provider invocations). -/
structure BGState : Type where
  cache : List ((ℝ × ℝ) × Wind)
  calls : List (ℝ × ℝ)

/-- Association-list lookup with real-valued keys (a Python `dict` access). -/
def alookup : List ((ℝ × ℝ) × Wind) → (ℝ × ℝ) → Option Wind
  | [], _ => none
  | (k, w) :: rest, key => if key = k then some w else alookup rest key

/-- The wind-selection block of `build_graph` for one edge: with wind enabled
it looks up the rounded-midpoint key in the cache; on a miss it invokes the
provider, storing the result on success; if the provider fails the exception
is swallowed and a zero wind is used for this edge (note: the fallback is
*not* written to the cache — the assignment `wind_cache[key] = ...` is what
raised).  With wind disabled the zero wind initialization stands. -/
def windFor (use_wind : Bool) (prov : Provider) (st : BGState)
    (mlat mlon : ℝ) : Wind × BGState :=
  if use_wind then
    let key := (pyround4 mlat, pyround4 mlon)
    match alookup st.cache key with
    | some w => (w, st)
    | none =>
      match prov mlat mlon with
      | some w => (w, ⟨(key, w) :: st.cache, st.calls ++ [(mlat, mlon)]⟩)
      | none => (⟨0, 0⟩, ⟨st.cache, st.calls ++ [(mlat, mlon)]⟩)
  else (⟨0, 0⟩, st)

/-- The edge constructed by the body of `build_graph`'s loops from one tuple
`(i, (j, p1), (k, p2))` and the wind observation `w` chosen for it. -/
def mkEdgeT (cruise : ℝ) (t : ℕ × (ℕ × Pt) × (ℕ × Pt)) (w : Wind) : Edge :=
  let i := t.1
  let j := t.2.1.1
  let p1 := t.2.1.2
  let k := t.2.2.1
  let p2 := t.2.2.2
  let d := haversine_km p1.1 p1.2 p2.1 p2.2
  let tail := tailwind_component_kmh w.speed w.dir
    (bearing_between p1.1 p1.2 p2.1 p2.2)
  let ground_speed := max 40 (cruise + tail)
  ⟨(i, j), (i + 1, k), d / ground_speed, d⟩

/-- The midpoint coordinates at which `build_graph` samples the wind for one
edge tuple. -/
def midOf (t : ℕ × (ℕ × Pt) × (ℕ × Pt)) : ℝ × ℝ :=
  ((t.2.1.2.1 + t.2.2.2.1) / 2, (t.2.1.2.2 + t.2.2.2.2) / 2)

/-- The edge loops of `build_graph`, processed in source order while threading
the wind cache (and the provider-invocation log). -/
def processEdges (use_wind : Bool) (prov : Provider) (cruise : ℝ) :
    BGState → List (ℕ × (ℕ × Pt) × (ℕ × Pt)) → List Edge × BGState
  | st, [] => ([], st)
  | st, t :: ts =>
    let m := midOf t
    let ws := windFor use_wind prov st m.1 m.2
    let rest := processEdges use_wind prov cruise ws.2 ts
    (mkEdgeT cruise t ws.1 :: rest.1, rest.2)

/-- The node dictionary of the graph: `(i, j) ↦ (lat, lon)` for every lattice
node, in insertion order. -/
def nodesOf (slices : List (List Pt)) : List (NodeId × Pt) :=
  (enumFromN 0 slices).flatMap fun il =>
    (enumFromN 0 il.2).map fun jp => ((il.1, jp.1), jp.2)

/-- The result of one `build_graph` run: its node dictionary and edge list,
plus the final wind cache and the provider-invocation log. -/
structure BGResult : Type where
  nodes : List (NodeId × Pt)
  edges : List Edge
  cache : List ((ℝ × ℝ) × Wind)
  calls : List (ℝ × ℝ)

/-- `build_graph` from `optimize.py`. -/
def build_graph (slices : List (List Pt)) (cruise : ℝ) (use_wind : Bool)
    (prov : Provider) : BGResult :=
  let r := processEdges use_wind prov cruise ⟨[], []⟩ (edgeTriples slices)
  ⟨nodesOf slices, r.1, r.2.cache, r.2.calls⟩

/-- Association-list lookup in the node dictionary. -/
def nlookup : List (NodeId × Pt) → NodeId → Option Pt
  | [], _ => none
  | (k, p) :: rest, key => if key = k then some p else nlookup rest key

/-- `find_endpoints_nodes` from `optimize.py`: the center index is
`len(start_nodes) // 2` (the indexing `slices_nodes[0]` raises `IndexError`
on an empty list). -/
def find_endpoints_nodes (slices : List (List Pt)) :
    Except Err (NodeId × NodeId) :=
  match slices with
  | [] => .error .indexError
  | l0 :: _ =>
    .ok ((0, l0.length / 2), (slices.length - 1, l0.length / 2))

/-- `heuristic` from `optimize.py`: great-circle distance between the two
nodes' coordinates divided by the cruise speed.  (A missing node id would be
a Python `KeyError`; the claims only apply it to nodes of the graph, and the
default is never reached there.) -/
def heuristic (u v : NodeId) (G : BGResult) (cruise_kmh : ℝ) : ℝ :=
  let pu := (nlookup G.nodes u).getD (0, 0)
  let pv := (nlookup G.nodes v).getD (0, 0)
  haversine_km pu.1 pu.2 pv.1 pv.2 / cruise_kmh

/-- The post-lookup body of `run_optimization` from `optimize.py`, starting
from already-resolved airport coordinates (airport CSV lookup, map rendering
and reporting are external collaborators).  The `nx.astar_path` call is an
external library routine; it is modelled by the one behavior the embedded
claims exercise: it raises (here, when the start or goal node is not in the
graph), and `run_optimization` converts any such exception into the
`RuntimeError("A* search failed: ...")`, modelled as `Err.astarFailed`.
Note there is no input validation of any kind before corridor construction. -/
def run_optimization (lat1 lon1 lat2 lon2 : ℝ) (slices : ℕ)
    (lateral_offsets_km : List ℝ) (cruise_kmh : ℝ) (use_wind : Bool)
    (prov : Provider) : Except Err Unit := do
  let slices_nodes ← build_corridor_slices lat1 lon1 lat2 lon2 slices
    lateral_offsets_km
  let G := build_graph slices_nodes cruise_kmh use_wind prov
  let se ← find_endpoints_nodes slices_nodes
  if (nlookup G.nodes se.1).isSome ∧ (nlookup G.nodes se.2).isSome then
    .ok ()
  else .error .astarFailed

/-- `PathCost E g u c`: some node sequence from `u` to the goal `g`
following edges of `E` has total weight `c`.  The minimal remaining cost
from `u` to `g` is the infimum of such `c`; a heuristic is admissible iff it
is `≤ c` for every such path. -/
inductive PathCost (E : List Edge) (g : NodeId) : NodeId → ℝ → Prop
  | refl : PathCost E g g 0
  | step (e : Edge) (c : ℝ) (he : e ∈ E) (hrest : PathCost E g e.dst c) :
      PathCost E g e.src (e.weight + c)

end

/-! ## Basic arithmetic lemmas -/

theorem floor_eval {r : ℝ} {z : ℤ} (h1 : (z : ℝ) ≤ r) (h2 : r < z + 1) :
    ⌊r⌋ = z := by
  rw [Int.floor_eq_iff]
  exact ⟨h1, by exact_mod_cast h2⟩

theorem pymod_nonneg (a : ℝ) {b : ℝ} (hb : 0 < b) : 0 ≤ pymod a b := by
  unfold pymod
  have h := Int.floor_le (a / b)
  have : (⌊a / b⌋ : ℝ) * b ≤ a / b * b := by
    exact mul_le_mul_of_nonneg_right h (le_of_lt hb)
  rw [div_mul_cancel₀ a (ne_of_gt hb)] at this
  nlinarith

theorem pymod_lt (a : ℝ) {b : ℝ} (hb : 0 < b) : pymod a b < b := by
  unfold pymod
  have h := Int.lt_floor_add_one (a / b)
  have : a / b * b < ((⌊a / b⌋ : ℝ) + 1) * b :=
    mul_lt_mul_of_pos_right h hb
  rw [div_mul_cancel₀ a (ne_of_gt hb)] at this
  nlinarith

theorem pymod_add_int_mul (a b : ℝ) (k : ℤ) (hb : b ≠ 0) :
    pymod (a + b * k) b = pymod a b := by
  unfold pymod
  have : (a + b * k) / b = a / b + k := by
    field_simp
    ring
  rw [this, Int.floor_add_int]
  push_cast
  ring

theorem pymod_shift (a s b : ℝ) (hb : b ≠ 0) :
    pymod (pymod a b + s) b = pymod (a + s) b := by
  unfold pymod
  have h1 : (a - b * ⌊a / b⌋ + s) / b = (a + s) / b + (-⌊a / b⌋ : ℤ) := by
    push_cast
    field_simp
    ring
  rw [h1, Int.floor_add_int]
  push_cast
  ring

/-! ## atan2 lemmas -/

theorem arctan_nonneg_of {z : ℝ} (hz : 0 ≤ z) : 0 ≤ arctan z := by
  have h := Real.arctan_strictMono.monotone hz
  rwa [Real.arctan_zero] at h

theorem arctan_nonpos_of {z : ℝ} (hz : z ≤ 0) : arctan z ≤ 0 := by
  have h := Real.arctan_strictMono.monotone hz
  rwa [Real.arctan_zero] at h

theorem atan2_nonneg {y : ℝ} (x : ℝ) (hy : 0 ≤ y) : 0 ≤ atan2 y x := by
  unfold atan2
  rcases lt_trichotomy 0 x with hx | hx | hx
  · rw [if_pos hx]
    exact arctan_nonneg_of (div_nonneg hy (le_of_lt hx))
  · rw [if_neg (by rw [← hx]; exact lt_irrefl 0), if_neg (by rw [← hx]; exact lt_irrefl 0)]
    rcases lt_or_eq_of_le hy with h | h
    · rw [if_pos h]; positivity
    · rw [if_neg (by rw [← h]; exact lt_irrefl 0), if_neg (by rw [← h]; exact lt_irrefl 0)]
  · rw [if_neg (by linarith), if_pos hx, if_pos hy]
    have h1 : -(π/2) < arctan (y / x) := Real.neg_pi_div_two_lt_arctan _
    linarith [Real.pi_pos]

theorem atan2_le_pi {y : ℝ} (x : ℝ) (hy : 0 ≤ y) : atan2 y x ≤ π := by
  unfold atan2
  rcases lt_trichotomy 0 x with hx | hx | hx
  · rw [if_pos hx]
    have := Real.arctan_lt_pi_div_two (y / x)
    linarith [Real.pi_pos]
  · rw [if_neg (by rw [← hx]; exact lt_irrefl 0), if_neg (by rw [← hx]; exact lt_irrefl 0)]
    rcases lt_or_eq_of_le hy with h | h
    · rw [if_pos h]; linarith [Real.pi_pos]
    · rw [if_neg (by rw [← h]; exact lt_irrefl 0), if_neg (by rw [← h]; exact lt_irrefl 0)]
      positivity
  · rw [if_neg (by linarith), if_pos hx, if_pos hy]
    have h2 : arctan (y / x) ≤ 0 :=
      arctan_nonpos_of (div_nonpos_of_nonneg_of_nonpos hy (le_of_lt hx))
    linarith

theorem atan2_zero_pos {x : ℝ} (hx : 0 < x) : atan2 0 x = 0 := by
  unfold atan2
  rw [if_pos hx, zero_div, Real.arctan_zero]

theorem atan2_pos_zero {y : ℝ} (hy : 0 < y) : atan2 y 0 = π / 2 := by
  unfold atan2
  rw [if_neg (lt_irrefl 0), if_neg (lt_irrefl 0), if_pos hy]

theorem atan2_zero_zero : atan2 0 0 = 0 := by
  unfold atan2
  rw [if_neg (lt_irrefl 0), if_neg (lt_irrefl 0), if_neg (lt_irrefl 0),
    if_neg (lt_irrefl 0)]

theorem atan2_sin_cos {t : ℝ} (h1 : -π < t) (h2 : t ≤ π) :
    atan2 (sin t) (cos t) = t := by
  have hpi := Real.pi_pos
  unfold atan2
  rcases lt_trichotomy 0 (cos t) with hx | hx | hx
  · rw [if_pos hx]
    have hl : -(π/2) < t := by
      by_contra h
      push_neg at h
      have hnn : π/2 ≤ -t := by linarith
      have hub : -t ≤ π + π/2 := by linarith
      have hc : cos (-t) ≤ 0 := Real.cos_nonpos_of_pi_div_two_le_of_le hnn hub
      rw [Real.cos_neg] at hc
      linarith
    have hr : t < π/2 := by
      by_contra h
      push_neg at h
      have hc : cos t ≤ 0 := Real.cos_nonpos_of_pi_div_two_le_of_le h (by linarith)
      linarith
    rw [← Real.tan_eq_sin_div_cos, Real.arctan_tan hl hr]
  · rw [if_neg (by rw [← hx]; exact lt_irrefl 0), if_neg (by rw [← hx]; exact lt_irrefl 0)]
    rcases Real.cos_eq_zero_iff.mp hx.symm with ⟨k, hk⟩
    have hkcase : k = 0 ∨ k = -1 := by
      rw [hk] at h1 h2
      have e1 : (-2 : ℝ) < 2*(k : ℝ)+1 := by nlinarith
      have e2 : 2*(k : ℝ)+1 ≤ 2 := by nlinarith
      have i1 : (-2 : ℤ) < 2*k+1 := by exact_mod_cast (by push_cast; linarith : ((-2 : ℤ) : ℝ) < ((2*k+1 : ℤ) : ℝ))
      have i2 : (2*k+1 : ℤ) ≤ 2 := by exact_mod_cast (by push_cast; linarith : ((2*k+1 : ℤ) : ℝ) ≤ ((2 : ℤ) : ℝ))
      omega
    rcases hkcase with hk0 | hk0
    · have ht : t = π/2 := by rw [hk, hk0]; push_cast; ring
      rw [ht, Real.sin_pi_div_two, if_pos one_pos]
    · have ht : t = -(π/2) := by rw [hk, hk0]; push_cast; ring
      rw [ht, Real.sin_neg, Real.sin_pi_div_two]
      rw [if_neg (by norm_num), if_pos (by norm_num)]
  · rw [if_neg (by linarith), if_pos hx]
    rcases le_or_lt 0 (sin t) with hy | hy
    · rw [if_pos hy]
      have hgt : π/2 < t := by
        by_contra h
        push_neg at h
        rcases le_or_lt 0 t with h0 | h0
        · have hc : 0 ≤ cos t := Real.cos_nonneg_of_mem_Icc ⟨by linarith, h⟩
          linarith
        · have hs : sin t < 0 := Real.sin_neg_of_neg_of_neg_pi_lt h0 h1
          linarith
      have hl : -(π/2) < t - π := by linarith
      have hr : t - π < π/2 := by linarith
      have htan : Real.tan (t - π) = sin t / cos t := by
        rw [Real.tan_eq_sin_div_cos, Real.sin_sub_pi, Real.cos_sub_pi, neg_div_neg_eq]
      rw [← htan, Real.arctan_tan hl hr]
      ring
    · rw [if_neg (not_le.mpr hy)]
      have hlt : t < -(π/2) := by
        by_contra h
        push_neg at h
        rcases le_or_lt 0 t with h0 | h0
        · have hs : 0 ≤ sin t := Real.sin_nonneg_of_nonneg_of_le_pi h0 h2
          linarith
        · rcases lt_or_eq_of_le h with h' | h'
          · have hc : 0 < cos t := Real.cos_pos_of_mem_Ioo ⟨h', by linarith⟩
            linarith
          · rw [← h', Real.cos_neg, Real.cos_pi_div_two] at hx
            linarith
      have hl : -(π/2) < t + π := by linarith
      have hr : t + π < π/2 := by linarith
      have htan : Real.tan (t + π) = sin t / cos t := by
        rw [Real.tan_eq_sin_div_cos, Real.sin_add_pi, Real.cos_add_pi, neg_div_neg_eq]
      rw [← htan, Real.arctan_tan hl hr]
      ring

theorem atan2_scale {c : ℝ} (hc : 0 < c) (y x : ℝ) :
    atan2 (c * y) (c * x) = atan2 y x := by
  unfold atan2
  have hdiv : c * y / (c * x) = y / x := by
    rcases eq_or_ne x 0 with hx | hx
    · rw [hx, mul_zero, div_zero, div_zero]
    · field_simp
      ring
  have h1 : (0 < c * x) ↔ (0 < x) := by
    constructor
    · intro h; nlinarith
    · intro h; positivity
  have h2 : (c * x < 0) ↔ (x < 0) := by
    constructor
    · intro h; nlinarith
    · intro h; nlinarith
  have h3 : (0 ≤ c * y) ↔ (0 ≤ y) := by
    constructor
    · intro h; nlinarith
    · intro h; positivity
  have h4 : (0 < c * y) ↔ (0 < y) := by
    constructor
    · intro h; nlinarith
    · intro h; positivity
  have h5 : (c * y < 0) ↔ (y < 0) := by
    constructor
    · intro h; nlinarith
    · intro h; nlinarith
  simp only [hdiv, h1, h2, h3, h4, h5]

/-! ## List and fold machinery -/

theorem mem_enumFromN {l : List α} : ∀ {n : ℕ} {p : ℕ × α},
    p ∈ enumFromN n l ↔ ∃ j, p.1 = n + j ∧ l.get? j = some p.2 := by
  induction l with
  | nil => intro n p; simp [enumFromN]
  | cons b bs ih =>
    intro n p
    simp only [enumFromN, List.mem_cons, ih]
    constructor
    · rintro (rfl | ⟨j, hj, hg⟩)
      · exact ⟨0, by simp⟩
      · exact ⟨j + 1, by omega, by simpa using hg⟩
    · rintro ⟨j, hj, hg⟩
      cases j with
      | zero =>
        left
        obtain ⟨p1, p2⟩ := p
        simp only [List.get?] at hg
        simp only at hj
        simp only [Option.some.injEq] at hg
        simp [hj, hg.symm]
      | succ j' =>
        right
        exact ⟨j', by omega, by simpa using hg⟩

theorem mem_edgeTriples {slices : List (List Pt)} {t : ℕ × (ℕ × Pt) × (ℕ × Pt)} :
    t ∈ edgeTriples slices ↔
      t.1 + 1 < slices.length ∧
      (slices.getD t.1 []).get? t.2.1.1 = some t.2.1.2 ∧
      (slices.getD (t.1 + 1) []).get? t.2.2.1 = some t.2.2.2 := by
  unfold edgeTriples
  simp only [List.mem_flatMap, List.mem_range, List.mem_map]
  constructor
  · rintro ⟨i, hi, jp, hjp, kp, hkp, rfl⟩
    obtain ⟨j, hj1, hj2⟩ := mem_enumFromN.mp hjp
    obtain ⟨k, hk1, hk2⟩ := mem_enumFromN.mp hkp
    refine ⟨by simp; omega, ?_, ?_⟩
    · simpa [show jp.1 = j by omega] using hj2
    · simpa [show kp.1 = k by omega] using hk2
  · rintro ⟨h1, h2, h3⟩
    refine ⟨t.1, by omega, (t.2.1.1, t.2.1.2),
      mem_enumFromN.mpr ⟨t.2.1.1, by omega, h2⟩,
      (t.2.2.1, t.2.2.2),
      mem_enumFromN.mpr ⟨t.2.2.1, by omega, h3⟩, rfl⟩

theorem processEdges_mem {uw : Bool} {prov : Provider} {cruise : ℝ} :
    ∀ {ts : List (ℕ × (ℕ × Pt) × (ℕ × Pt))} {st : BGState} {e : Edge},
      e ∈ (processEdges uw prov cruise st ts).1 →
      ∃ t ∈ ts, ∃ w, e = mkEdgeT cruise t w := by
  intro ts
  induction ts with
  | nil => intro st e h; simp [processEdges] at h
  | cons t ts ih =>
    intro st e h
    simp only [processEdges, List.mem_cons] at h
    rcases h with rfl | h
    · exact ⟨t, List.mem_cons_self t ts, _, rfl⟩
    · obtain ⟨t', ht', w, hw⟩ := ih h
      exact ⟨t', List.mem_cons_of_mem _ ht', w, hw⟩

theorem processEdges_complete {uw : Bool} {prov : Provider} {cruise : ℝ} :
    ∀ {ts : List (ℕ × (ℕ × Pt) × (ℕ × Pt))} {st : BGState} {t},
      t ∈ ts → ∃ w, mkEdgeT cruise t w ∈ (processEdges uw prov cruise st ts).1 := by
  intro ts
  induction ts with
  | nil => intro st t h; simp at h
  | cons t' ts ih =>
    intro st t h
    rcases List.mem_cons.mp h with rfl | h
    · refine ⟨(windFor uw prov st (midOf t).1 (midOf t).2).1, ?_⟩
      simp only [processEdges]
      exact List.mem_cons_self _ _
    · obtain ⟨w, hw⟩ := @ih ((windFor uw prov st (midOf t').1 (midOf t').2).2) _ h
      refine ⟨w, ?_⟩
      simp only [processEdges]
      exact List.mem_cons_of_mem _ hw

theorem processEdges_noWind {prov : Provider} {cruise : ℝ} :
    ∀ {ts : List (ℕ × (ℕ × Pt) × (ℕ × Pt))} {st : BGState},
      processEdges false prov cruise st ts =
        (ts.map fun t => mkEdgeT cruise t ⟨0, 0⟩, st) := by
  intro ts
  induction ts with
  | nil => intro st; simp [processEdges]
  | cons t ts ih =>
    intro st
    simp only [processEdges, windFor, Bool.false_eq_true, if_false, ih,
      List.map_cons]

theorem processEdges_fail {prov : Provider} (hp : ∀ x y, prov x y = none)
    {cruise : ℝ} :
    ∀ {ts : List (ℕ × (ℕ × Pt) × (ℕ × Pt))} {cs : List (ℝ × ℝ)},
      processEdges true prov cruise ⟨[], cs⟩ ts =
        (ts.map fun t => mkEdgeT cruise t ⟨0, 0⟩, ⟨[], cs ++ ts.map midOf⟩) := by
  intro ts
  induction ts with
  | nil => intro cs; simp [processEdges]
  | cons t ts ih =>
    intro cs
    have hw : windFor true prov ⟨[], cs⟩ (midOf t).1 (midOf t).2 =
        (⟨0, 0⟩, ⟨[], cs ++ [((midOf t).1, (midOf t).2)]⟩) := by
      rw [windFor]
      simp [alookup, hp]
    simp only [processEdges, hw, ih, List.map_cons]
    simp

theorem nlookup_append_of_none {xs ys : List (NodeId × Pt)} {k : NodeId}
    (h : nlookup xs k = none) : nlookup (xs ++ ys) k = nlookup ys k := by
  induction xs with
  | nil => simp
  | cons x xs ih =>
    obtain ⟨xk, xp⟩ := x
    simp only [nlookup, List.cons_append] at h ⊢
    split_ifs at h ⊢ with hk
    · exact ih h

theorem nlookup_append_of_some {xs ys : List (NodeId × Pt)} {k : NodeId}
    {v : Pt} (h : nlookup xs k = some v) :
    nlookup (xs ++ ys) k = some v := by
  induction xs with
  | nil => simp [nlookup] at h
  | cons x xs ih =>
    obtain ⟨xk, xp⟩ := x
    simp only [nlookup, List.cons_append] at h ⊢
    split_ifs at h ⊢ with hk
    · exact h
    · exact ih h

theorem nlookup_row {l : List Pt} : ∀ {j0 i0 i j : ℕ},
    nlookup ((enumFromN j0 l).map fun jp => ((i0, jp.1), jp.2)) (i, j) =
      if i = i0 ∧ j0 ≤ j then l.get? (j - j0) else none := by
  induction l with
  | nil =>
    intro j0 i0 i j
    simp [enumFromN, nlookup]
  | cons p ps ih =>
    intro j0 i0 i j
    simp only [enumFromN, List.map_cons, nlookup, ih]
    by_cases hk : ((i, j) : NodeId) = ((i0, j0) : NodeId)
    · have hi : i = i0 := congrArg Prod.fst hk
      have hj : j = j0 := congrArg Prod.snd hk
      rw [if_pos hk, if_pos ⟨hi, by omega⟩]
      simp [show j - j0 = 0 by omega]
    · rw [if_neg hk]
      by_cases hc : i = i0 ∧ j0 ≤ j
      · have hj1 : j0 + 1 ≤ j := by
          rcases Nat.lt_or_ge j0 j with h | h
          · omega
          · exfalso
            apply hk
            have h1 : j = j0 := by omega
            rw [hc.1, h1]
        rw [if_pos ⟨hc.1, hj1⟩, if_pos hc]
        have hs : j - j0 = (j - (j0 + 1)) + 1 := by omega
        rw [hs]
        simp
      · rw [if_neg (fun h => hc ⟨h.1, by omega⟩), if_neg hc]

theorem nlookup_nodesOf_aux {slices : List (List Pt)} : ∀ {i0 i j : ℕ},
    nlookup ((enumFromN i0 slices).flatMap fun il =>
        (enumFromN 0 il.2).map fun jp => ((il.1, jp.1), jp.2)) (i, j) =
      if i0 ≤ i then (slices.get? (i - i0)).bind (fun l => l.get? j) else none := by
  induction slices with
  | nil =>
    intro i0 i j
    simp [enumFromN, nlookup]
  | cons l ls ih =>
    intro i0 i j
    simp only [enumFromN, List.flatMap_cons]
    by_cases hi : i = i0
    · subst hi
      rcases hlj : l.get? j with _ | p
      · rw [nlookup_append_of_none
            (by rw [nlookup_row,
                  if_pos (⟨rfl, Nat.zero_le j⟩ : i = i ∧ 0 ≤ j), Nat.sub_zero]
                exact hlj),
          ih]
        rw [if_neg (by omega), if_pos (le_refl i)]
        simp [← List.get?_eq_getElem?, hlj]
      · rw [nlookup_append_of_some (v := p)
            (by rw [nlookup_row,
                  if_pos (⟨rfl, Nat.zero_le j⟩ : i = i ∧ 0 ≤ j), Nat.sub_zero]
                exact hlj),
          if_pos (le_refl i)]
        simp [← List.get?_eq_getElem?, hlj]
    · rw [nlookup_append_of_none (by rw [nlookup_row]; simp [hi]), ih]
      by_cases hle : i0 ≤ i
      · have h1 : i0 + 1 ≤ i := by omega
        rw [if_pos h1, if_pos hle]
        have h2 : i - i0 = (i - (i0 + 1)) + 1 := by omega
        rw [h2]
        simp
      · rw [if_neg (by omega), if_neg hle]

theorem nlookup_nodesOf {slices : List (List Pt)} {i j : ℕ} :
    nlookup (nodesOf slices) (i, j) =
      (slices.get? i).bind (fun l => l.get? j) := by
  unfold nodesOf
  rw [nlookup_nodesOf_aux, if_pos (Nat.zero_le i)]
  simp

/-! ## Structure of the corridor and the graph -/

theorem great_circle_points_length {lat1 lon1 lat2 lon2 : ℝ} {n : ℕ}
    (hn : 1 ≤ n) :
    ∃ gc, great_circle_points lat1 lon1 lat2 lon2 n = .ok gc ∧
      gc.length = n + 1 := by
  rcases eq_or_ne (gcDelta lat1 lon1 lat2 lon2) 0 with h | h
  · refine ⟨List.replicate (n + 1) (lat1, lon1), ?_, List.length_replicate _ _⟩
    simp only [great_circle_points]
    rw [if_pos h]
  · simp only [great_circle_points]
    rw [if_neg h, if_neg (by omega)]
    refine ⟨_, rfl, ?_⟩
    rw [List.length_map, List.length_range]

theorem build_corridor_slices_ok {lat1 lon1 lat2 lon2 : ℝ}
    {offsets : List ℝ} {n : ℕ} (hn : 1 ≤ n) :
    ∃ slices, build_corridor_slices lat1 lon1 lat2 lon2 n offsets = .ok slices ∧
      slices.length = n ∧ ∀ l ∈ slices, l.length = offsets.length := by
  obtain ⟨gc, hgc, hlen⟩ := great_circle_points_length hn
  unfold build_corridor_slices
  rw [hgc]
  refine ⟨_, rfl, ?_, ?_⟩
  · simp [hlen]
  · intro l hl
    simp only [List.mem_map, List.mem_range] at hl
    obtain ⟨i, _, rfl⟩ := hl
    simp

theorem build_graph_edges_mem {slices : List (List Pt)} {cruise : ℝ}
    {uw : Bool} {prov : Provider} {e : Edge}
    (he : e ∈ (build_graph slices cruise uw prov).edges) :
    ∃ t ∈ edgeTriples slices, ∃ w, e = mkEdgeT cruise t w := by
  unfold build_graph at he
  exact processEdges_mem he

theorem build_graph_edges_complete {slices : List (List Pt)} {cruise : ℝ}
    {uw : Bool} {prov : Provider} {t}
    (ht : t ∈ edgeTriples slices) :
    ∃ w, mkEdgeT cruise t w ∈ (build_graph slices cruise uw prov).edges := by
  unfold build_graph
  exact processEdges_complete ht

/-! ## Concrete modular-arithmetic evaluations -/

theorem pymod_180_360 : pymod 180 360 = 180 := by
  unfold pymod
  rw [show (180 : ℝ) / 360 = 1/2 by norm_num,
    floor_eval (z := 0) (by norm_num) (by norm_num)]
  norm_num

theorem pymod_360_360 : pymod 360 360 = 0 := by
  unfold pymod
  rw [show (360 : ℝ) / 360 = 1 by norm_num,
    floor_eval (z := 1) (by norm_num) (by norm_num)]
  norm_num

theorem pymod_450_360 : pymod 450 360 = 90 := by
  unfold pymod
  rw [show (450 : ℝ) / 360 = 5/4 by norm_num,
    floor_eval (z := 1) (by norm_num) (by norm_num)]
  norm_num

theorem pymod_90_360 : pymod 90 360 = 90 := by
  unfold pymod
  rw [show (90 : ℝ) / 360 = 1/4 by norm_num,
    floor_eval (z := 0) (by norm_num) (by norm_num)]
  norm_num

theorem deg2rad_zero : deg2rad 0 = 0 := by rw [deg2rad]; ring

theorem deg2rad_90 : deg2rad 90 = π / 2 := by rw [deg2rad]; ring

theorem deg2rad_180 : deg2rad 180 = π := by rw [deg2rad]; ring

theorem rad2deg_zero : rad2deg 0 = 0 := by rw [rad2deg]; ring

theorem rad2deg_pi : rad2deg π = 180 := by
  rw [rad2deg]
  field_simp

theorem rad2deg_pi_div_two : rad2deg (π / 2) = 90 := by
  rw [rad2deg]
  field_simp
  ring

theorem rad2deg_deg2rad (d : ℝ) : rad2deg (deg2rad d) = d := by
  rw [rad2deg, deg2rad]
  field_simp

/-! ## Claim C8: tailwind component bounds -/

theorem tailwind_eq (ws wd b : ℝ) : tailwind_component_kmh ws wd b =
    ws * cos (deg2rad (pymod (pymod (wd + 180) 360 - b + 180) 360 - 180)) := rfl

/-- C8: for wind speed `≥ 0`, `|tailwind_component_kmh| ≤ speed`; it equals
`+speed` when the wind's to-direction `(directionFrom + 180) mod 360` equals
the aircraft bearing, and `-speed` when the wind's to-direction is directly
opposite the bearing (differs from it by 180 degrees mod 360). -/
theorem C8_tailwind_bounds (ws wd b : ℝ) (hws : 0 ≤ ws) :
    |tailwind_component_kmh ws wd b| ≤ ws ∧
    (pymod (wd + 180) 360 = b → tailwind_component_kmh ws wd b = ws) ∧
    (pymod (pymod (wd + 180) 360 - b) 360 = 180 →
      tailwind_component_kmh ws wd b = -ws) := by
  refine ⟨?_, ?_, ?_⟩
  · rw [tailwind_eq, abs_mul, abs_of_nonneg hws]
    calc ws * |cos (deg2rad (pymod (pymod (wd + 180) 360 - b + 180) 360 - 180))|
        ≤ ws * 1 := mul_le_mul_of_nonneg_left (Real.abs_cos_le_one _) hws
      _ = ws := mul_one ws
  · intro h
    rw [tailwind_eq, h, sub_self, zero_add, pymod_180_360, sub_self,
      deg2rad_zero, Real.cos_zero, mul_one]
  · intro h
    set W := pymod (wd + 180) 360 with hW
    have h2 : pymod (W - b + 180) 360 = 0 := by
      have hfl : W - b - 360 * ⌊(W - b) / 360⌋ = 180 := h
      have hrw : W - b + 180 = 0 + 360 * ((⌊(W - b) / 360⌋ + 1 : ℤ)) := by
        push_cast
        linarith
      rw [hrw, pymod_add_int_mul 0 360 _ (by norm_num)]
      unfold pymod
      norm_num
    rw [tailwind_eq, ← hW, h2]
    rw [show (0 : ℝ) - 180 = -180 by norm_num,
      show deg2rad (-180) = -π by rw [deg2rad]; ring,
      Real.cos_neg, Real.cos_pi]
    ring

/-- C8 witness: a concrete instantiation (wind speed 100, from 270 degrees,
bearing 90 degrees) discharging the hypothesis `0 ≤ speed`. -/
theorem C8_tailwind_bounds_witness :
    (0 : ℝ) ≤ 100 ∧
    (|tailwind_component_kmh 100 270 90| ≤ 100 ∧
    (pymod (270 + 180) 360 = 90 → tailwind_component_kmh 100 270 90 = 100) ∧
    (pymod (pymod (270 + 180) 360 - 90) 360 = 180 →
      tailwind_component_kmh 100 270 90 = -100)) :=
  ⟨by norm_num, C8_tailwind_bounds 100 270 90 (by norm_num)⟩

/-! ## Claim C9: destination_point longitude normalization -/

theorem lonNorm_bounds (x : ℝ) :
    -180 ≤ pymod (x + 180) 360 - 180 ∧ pymod (x + 180) 360 - 180 < 180 :=
  ⟨by linarith [pymod_nonneg (x + 180) (by norm_num : (0:ℝ) < 360)],
   by linarith [pymod_lt (x + 180) (by norm_num : (0:ℝ) < 360)]⟩

/-- C9 (counterexample): at latitude 0, longitude 180 (a valid point), with
any bearing and distance 0, `destination_point` returns longitude exactly
`-180`, which the claim says is never returned (and which lies outside
`(-180, 180]`). -/
theorem C9_counterexample :
    (destination_point 0 180 0 0).2 = -180 ∧
    ¬ (-180 < (destination_point 0 180 0 0).2) := by
  have h : destination_point 0 180 0 0 = ((0 : ℝ), (-180 : ℝ)) := by
    unfold destination_point
    rw [deg2rad_zero, deg2rad_180]
    rw [zero_div]
    simp only [Real.sin_zero, Real.cos_zero, Real.arcsin_zero, zero_mul,
      mul_zero, one_mul, mul_one, zero_add, add_zero, sub_zero]
    rw [atan2_zero_pos one_pos, add_zero, rad2deg_zero, rad2deg_pi]
    rw [show (180 : ℝ) + 180 = 360 by norm_num, pymod_360_360]
    norm_num
  rw [h]
  norm_num

/-- C9 (amended): the longitude returned by `destination_point` always lies
in `[-180, 180)`: the value `-180` can be returned (see the counterexample)
while `180` never is — the half-open interval is oriented the other way from
the claim. -/
theorem C9_amended (lat lon bearing_deg distance_km : ℝ) :
    -180 ≤ (destination_point lat lon bearing_deg distance_km).2 ∧
    (destination_point lat lon bearing_deg distance_km).2 < 180 :=
  lonNorm_bounds _

/-! ## Claim C2: provider failure handling in build_graph -/

/-- C2 (counterexample): a three-layer lattice whose edges share the rounded
midpoint key `(0, 0)`, with a provider that always fails.  Both edge queries
invoke the provider (the call log has two entries for the same key) and the
final wind cache is empty: the zero-wind fallback was *not* stored, so the
second query with the same rounded key re-invoked the provider, contrary to
the claim. -/
theorem C2_counterexample :
    (build_graph [[(0, 0)], [(0, 0)], [(0, 0)]] 900 true
      (fun _ _ => none)).calls = [((0 : ℝ), (0 : ℝ)), (0, 0)] ∧
    (build_graph [[(0, 0)], [(0, 0)], [(0, 0)]] 900 true
      (fun _ _ => none)).cache = [] := by
  have hfail := @processEdges_fail (fun _ _ => none) (fun _ _ => rfl) 900
    (edgeTriples [[(0, 0)], [(0, 0)], [(0, 0)]]) []
  unfold build_graph
  rw [hfail]
  refine ⟨?_, rfl⟩
  have htr : edgeTriples [[((0 : ℝ), (0 : ℝ))], [(0, 0)], [(0, 0)]] =
      [(0, (0, (0, 0)), (0, (0, 0))), (1, (0, (0, 0)), (0, (0, 0)))] := by
    simp [edgeTriples, enumFromN, List.range_succ]
  rw [htr]
  simp [midOf]

/-- C2 (amended): on provider failure `build_graph` does observe the
zero-wind vector and no exception escapes — with an always-failing provider
every edge is computed from the zero-wind fallback — but the fallback is
*not* stored in the wind cache (which stays empty), and consequently every
edge's midpoint query invokes the provider again, even for repeated rounded
keys (unlike `compute_wind_adjusted_time_hours` in `main.py`, whose `except`
branch does cache the fallback). -/
theorem C2_amended (slices : List (List Pt)) (cruise : ℝ) (prov : Provider)
    (hp : ∀ x y, prov x y = none) :
    (build_graph slices cruise true prov).cache = [] ∧
    (build_graph slices cruise true prov).edges =
      (edgeTriples slices).map (fun t => mkEdgeT cruise t ⟨0, 0⟩) ∧
    (build_graph slices cruise true prov).calls =
      (edgeTriples slices).map midOf := by
  unfold build_graph
  rw [processEdges_fail hp]
  exact ⟨rfl, rfl, by simp⟩

/-- C2 witness: the amended theorem applied to the concrete three-layer
lattice and the always-failing provider. -/
theorem C2_amended_witness :
    (∀ x y : ℝ, (fun _ _ => (none : Option Wind)) x y = none) ∧
    ((build_graph [[(0, 0)], [(0, 0)], [(0, 0)]] 900 true
        (fun _ _ => none)).cache = [] ∧
     (build_graph [[(0, 0)], [(0, 0)], [(0, 0)]] 900 true
        (fun _ _ => none)).edges =
      (edgeTriples [[(0, 0)], [(0, 0)], [(0, 0)]]).map
        (fun t => mkEdgeT 900 t ⟨0, 0⟩) ∧
     (build_graph [[(0, 0)], [(0, 0)], [(0, 0)]] 900 true
        (fun _ _ => none)).calls =
      (edgeTriples [[(0, 0)], [(0, 0)], [(0, 0)]]).map midOf) :=
  ⟨fun _ _ => rfl, C2_amended _ 900 _ (fun _ _ => rfl)⟩

/-! ## Claim C10: wind disabled -/

theorem tailwind_zero_speed (wd b : ℝ) : tailwind_component_kmh 0 wd b = 0 := by
  rw [tailwind_eq]
  ring

/-- C10: with `use_wind = False` the wind provider is never invoked (the
call log is empty), the entire result is identical for any two providers,
and every edge weight is the edge's great-circle distance divided by
`max 40 cruise` (the zero-wind ground speed). -/
theorem C10_no_wind (slices : List (List Pt)) (cruise : ℝ)
    (prov prov' : Provider) (e : Edge)
    (he : e ∈ (build_graph slices cruise false prov).edges) :
    (build_graph slices cruise false prov).calls = [] ∧
    build_graph slices cruise false prov =
      build_graph slices cruise false prov' ∧
    e.weight = e.distKm / max 40 cruise := by
  have h1 := @processEdges_noWind prov cruise (edgeTriples slices) ⟨[], []⟩
  have h2 := @processEdges_noWind prov' cruise (edgeTriples slices) ⟨[], []⟩
  refine ⟨?_, ?_, ?_⟩
  · unfold build_graph
    rw [h1]
  · unfold build_graph
    rw [h1, h2]
  · unfold build_graph at he
    rw [h1] at he
    simp only at he
    obtain ⟨t, ht, rfl⟩ := List.mem_map.mp he
    show haversine_km _ _ _ _ / max 40 (cruise + tailwind_component_kmh 0 0 _)
      = haversine_km _ _ _ _ / max 40 cruise
    rw [tailwind_zero_speed, add_zero]

/-- C10 witness: concrete two-layer lattice; the membership hypothesis is
discharged for the single edge, with two visibly different providers. -/
theorem C10_no_wind_witness :
    (mkEdgeT 900 (0, (0, ((0 : ℝ), (0 : ℝ))), (0, ((0 : ℝ), (0 : ℝ)))) ⟨0, 0⟩ ∈
      (build_graph [[(0, 0)], [(0, 0)]] 900 false
        (fun _ _ => some ⟨50, 0⟩)).edges) ∧
    ((build_graph [[(0, 0)], [(0, 0)]] 900 false
        (fun _ _ => some ⟨50, 0⟩)).calls = [] ∧
     build_graph [[(0, 0)], [(0, 0)]] 900 false (fun _ _ => some ⟨50, 0⟩) =
       build_graph [[(0, 0)], [(0, 0)]] 900 false (fun _ _ => none) ∧
     (mkEdgeT 900 (0, (0, ((0 : ℝ), (0 : ℝ))), (0, ((0 : ℝ), (0 : ℝ))))
        ⟨0, 0⟩).weight =
       (mkEdgeT 900 (0, (0, ((0 : ℝ), (0 : ℝ))), (0, ((0 : ℝ), (0 : ℝ))))
        ⟨0, 0⟩).distKm / max 40 900) := by
  have hmem : mkEdgeT 900 (0, (0, ((0 : ℝ), (0 : ℝ))), (0, ((0 : ℝ), (0 : ℝ))))
      ⟨0, 0⟩ ∈ (build_graph [[(0, 0)], [(0, 0)]] 900 false
        (fun _ _ => some ⟨50, 0⟩)).edges := by
    unfold build_graph
    rw [processEdges_noWind]
    have htr : edgeTriples [[((0 : ℝ), (0 : ℝ))], [(0, 0)]] =
        [(0, (0, (0, 0)), (0, (0, 0)))] := by
      simp [edgeTriples, enumFromN, List.range_succ]
    simp only [htr, List.map_cons, List.map_nil]
    exact List.mem_singleton.mpr rfl
  exact ⟨hmem, C10_no_wind _ 900 _ (fun _ _ => none) _ hmem⟩

/-! ## Claim C5: ground-speed floor and edge-weight safety -/

theorem haversine_nonneg (lat1 lon1 lat2 lon2 : ℝ) :
    0 ≤ haversine_km lat1 lon1 lat2 lon2 := by
  have h := atan2_nonneg
    (y := Real.sqrt (havA (deg2rad lat1) (deg2rad lon1) (deg2rad lat2)
      (deg2rad lon2)))
    (Real.sqrt (1 - havA (deg2rad lat1) (deg2rad lon1) (deg2rad lat2)
      (deg2rad lon2)))
    (Real.sqrt_nonneg _)
  have hR : (0 : ℝ) ≤ R_EARTH_KM := by norm_num [R_EARTH_KM]
  simp only [haversine_km]
  exact mul_nonneg hR (mul_nonneg (by norm_num) h)

/-- C5: every edge constructed by `build_graph` (for any lattice, wind
setting and provider) has weight `distKm / max 40 (cruise + tailwind)` for
the wind observation used on that edge; the ground speed is at least 40 km/h
and strictly positive, the stored distance is nonnegative, and hence the
edge weight is well-defined (nonzero divisor) and nonnegative. -/
theorem C5_edge_weights (slices : List (List Pt)) (cruise : ℝ) (uw : Bool)
    (prov : Provider) (e : Edge)
    (he : e ∈ (build_graph slices cruise uw prov).edges) :
    (∃ tail, e.weight = e.distKm / max 40 (cruise + tail) ∧
      40 ≤ max 40 (cruise + tail) ∧ 0 < max 40 (cruise + tail)) ∧
    0 ≤ e.distKm ∧ 0 ≤ e.weight := by
  obtain ⟨t, ht, w, rfl⟩ := build_graph_edges_mem he
  have hdist : 0 ≤ (mkEdgeT cruise t w).distKm := haversine_nonneg _ _ _ _
  have hgs : (0 : ℝ) < max 40 (cruise +
      tailwind_component_kmh w.speed w.dir
        (bearing_between t.2.1.2.1 t.2.1.2.2 t.2.2.2.1 t.2.2.2.2)) :=
    lt_of_lt_of_le (by norm_num) (le_max_left _ _)
  refine ⟨⟨tailwind_component_kmh w.speed w.dir
      (bearing_between t.2.1.2.1 t.2.1.2.2 t.2.2.2.1 t.2.2.2.2),
      rfl, le_max_left _ _, hgs⟩, hdist, ?_⟩
  exact div_nonneg hdist (le_of_lt hgs)

/-- C5 witness: the single edge of a concrete two-layer run (wind enabled,
failing provider) satisfies the membership hypothesis. -/
theorem C5_edge_weights_witness :
    (mkEdgeT 900 (0, (0, ((0 : ℝ), (0 : ℝ))), (0, ((0 : ℝ), (0 : ℝ)))) ⟨0, 0⟩ ∈
      (build_graph [[(0, 0)], [(0, 0)]] 900 true (fun _ _ => none)).edges) ∧
    ((∃ tail, (mkEdgeT 900 (0, (0, ((0 : ℝ), (0 : ℝ))),
        (0, ((0 : ℝ), (0 : ℝ)))) ⟨0, 0⟩).weight =
        (mkEdgeT 900 (0, (0, ((0 : ℝ), (0 : ℝ))),
          (0, ((0 : ℝ), (0 : ℝ)))) ⟨0, 0⟩).distKm / max 40 (900 + tail) ∧
        40 ≤ max 40 (900 + tail) ∧ 0 < max 40 (900 + tail)) ∧
     0 ≤ (mkEdgeT 900 (0, (0, ((0 : ℝ), (0 : ℝ))),
        (0, ((0 : ℝ), (0 : ℝ)))) ⟨0, 0⟩).distKm ∧
     0 ≤ (mkEdgeT 900 (0, (0, ((0 : ℝ), (0 : ℝ))),
        (0, ((0 : ℝ), (0 : ℝ)))) ⟨0, 0⟩).weight) := by
  have hmem : mkEdgeT 900 (0, (0, ((0 : ℝ), (0 : ℝ))), (0, ((0 : ℝ), (0 : ℝ))))
      ⟨0, 0⟩ ∈ (build_graph [[(0, 0)], [(0, 0)]] 900 true
        (fun _ _ => none)).edges := by
    unfold build_graph
    rw [processEdges_fail (fun _ _ => rfl)]
    have htr : edgeTriples [[((0 : ℝ), (0 : ℝ))], [(0, 0)]] =
        [(0, (0, (0, 0)), (0, (0, 0)))] := by
      simp [edgeTriples, enumFromN, List.range_succ]
    simp only [htr, List.map_cons, List.map_nil]
    exact List.mem_singleton.mpr rfl
  exact ⟨hmem, C5_edge_weights _ 900 true _ _ hmem⟩

/-! ## Degenerate-corridor evaluations -/

theorem gcDelta_self (lat lon : ℝ) : gcDelta lat lon lat lon = 0 := by
  unfold gcDelta havA
  rw [sub_self, sub_self]
  norm_num [Real.sin_zero, Real.sqrt_zero, Real.arcsin_zero]

theorem gcp_self (lat lon : ℝ) (n : ℕ) :
    great_circle_points lat lon lat lon n =
      .ok (List.replicate (n + 1) (lat, lon)) := by
  simp only [great_circle_points]
  rw [if_pos (gcDelta_self lat lon)]

/-! ## Claim C4: endpoint selection -/

theorem find_endpoints_of_shape {slices : List (List Pt)} {n K : ℕ}
    (hlen : slices.length = n) (hK : ∀ l ∈ slices, l.length = K)
    (hn : 1 ≤ n) :
    find_endpoints_nodes slices = .ok ((0, K / 2), (n - 1, K / 2)) := by
  cases slices with
  | nil => simp at hlen; omega
  | cons l0 rest =>
    simp only [find_endpoints_nodes]
    rw [hK l0 (List.mem_cons_self _ _), hlen]

/-- C4 (counterexample): with offsets `[0, 100]` (exact zero at position 0),
the pipeline chooses start node `(0, 1)` — the center index
`len(offsets) // 2 = 1` — not the position of offset `0` in the list. -/
theorem C4_counterexample :
    ∃ slices, build_corridor_slices 0 0 0 0 2 [0, 100] = .ok slices ∧
      find_endpoints_nodes slices = .ok ((0, 1), (1, 1)) ∧
      ([0, 100] : List ℝ).get? 0 = some 0 ∧
      ((0 : ℕ), (1 : ℕ)) ≠ ((0 : ℕ), (0 : ℕ)) := by
  obtain ⟨slices, hok, hlen, hK⟩ :=
    @build_corridor_slices_ok 0 0 0 0 [0, 100] 2 (by norm_num)
  refine ⟨slices, hok, ?_, rfl, by decide⟩
  have hK2 : ∀ l ∈ slices, l.length = 2 := by
    intro l hl
    rw [hK l hl]
    rfl
  simpa using find_endpoints_of_shape hlen hK2 (by norm_num)

/-- C4 (amended): for any corridor produced by `build_corridor_slices`
(`sliceCount ≥ 1`), the start node is `(0, K / 2)` and the goal
`(sliceCount - 1, K / 2)` where `K` is the length of the lateral-offsets
list — the center index `len // 2`, irrespective of where (or whether) the
exact offset 0 occurs; for symmetric odd-length lists such as
`[-100, 0, 100]` this happens to coincide with the zero-offset index. -/
theorem C4_amended (lat1 lon1 lat2 lon2 : ℝ) (n : ℕ) (offsets : List ℝ)
    (hn : 1 ≤ n) :
    ∃ slices, build_corridor_slices lat1 lon1 lat2 lon2 n offsets = .ok slices ∧
      find_endpoints_nodes slices =
        .ok ((0, offsets.length / 2), (n - 1, offsets.length / 2)) := by
  obtain ⟨slices, hok, hlen, hK⟩ := build_corridor_slices_ok hn
  exact ⟨slices, hok, find_endpoints_of_shape hlen hK hn⟩

/-- C4 witness: the amended theorem instantiated at a concrete degenerate
corridor with offsets `[0, 100]`. -/
theorem C4_amended_witness :
    (1 : ℕ) ≤ 2 ∧
    ∃ slices, build_corridor_slices 0 0 0 0 2 [0, 100] = .ok slices ∧
      find_endpoints_nodes slices =
        .ok ((0, ([0, 100] : List ℝ).length / 2),
             (2 - 1, ([0, 100] : List ℝ).length / 2)) :=
  ⟨by norm_num, C4_amended 0 0 0 0 2 [0, 100] (by norm_num)⟩

/-! ## Claim C3: no input validation in run_optimization -/

/-- C3 (counterexample): with slice count `0` (< 1) and identical origin and
destination, `run_optimization` performs no validation: corridor
construction runs (producing an empty lattice), the graph is built, and the
run fails afterwards with an `IndexError` at endpoint selection
(`slices_nodes[0]`) — not with the distinct invalid-configuration error the
claim requires, and not before corridor/graph work begins. -/
theorem C3_counterexample :
    run_optimization 0 0 0 0 0 [-100, 0, 100] 900 true (fun _ _ => none) =
      .error .indexError ∧ Err.indexError ≠ Err.invalidConfig := by
  refine ⟨?_, by decide⟩
  have hbcs : build_corridor_slices 0 0 0 0 0 [-100, 0, 100] = .ok [] := by
    unfold build_corridor_slices
    rw [gcp_self]
    simp [Except.map]
  unfold run_optimization
  rw [hbcs]
  simp [Except.bind, find_endpoints_nodes, Bind.bind]

/-- C3 (amended): `run_optimization` performs no input validation for any
origin/destination pair.  With slice count `0` it proceeds into corridor
construction and fails only afterwards: with an `IndexError` at endpoint
selection (`slices_nodes[0]`) when the great-circle central angle is zero
(e.g. coincident endpoints), and otherwise with a `ZeroDivisionError`
inside great-circle interpolation (`i / n_points` with `n_points = 0`).
With an empty lateral-offsets list (and any slice count `≥ 1`) it builds
the corridor and the (empty) graph and fails only inside the search step
with the `"A* search failed"` runtime error.  No invalid-configuration
error exists on any path. -/
theorem C3_amended :
    (∀ (lat1 lon1 lat2 lon2 : ℝ) (offsets : List ℝ) (cruise : ℝ) (uw : Bool)
      (prov : Provider),
      (gcDelta lat1 lon1 lat2 lon2 = 0 →
        run_optimization lat1 lon1 lat2 lon2 0 offsets cruise uw prov =
          .error .indexError) ∧
      (gcDelta lat1 lon1 lat2 lon2 ≠ 0 →
        run_optimization lat1 lon1 lat2 lon2 0 offsets cruise uw prov =
          .error .zeroDivision)) ∧
    (∀ (lat1 lon1 lat2 lon2 : ℝ) (n : ℕ) (cruise : ℝ) (uw : Bool)
      (prov : Provider), 1 ≤ n →
      run_optimization lat1 lon1 lat2 lon2 n [] cruise uw prov =
        .error .astarFailed) := by
  constructor
  · intro lat1 lon1 lat2 lon2 offsets cruise uw prov
    constructor
    · intro hd
      have hgcp : great_circle_points lat1 lon1 lat2 lon2 0 =
          .ok (List.replicate 1 (lat1, lon1)) := by
        simp only [great_circle_points]
        rw [if_pos hd]
      have hbcs : build_corridor_slices lat1 lon1 lat2 lon2 0 offsets =
          .ok [] := by
        unfold build_corridor_slices
        rw [hgcp]
        simp [Except.map]
      unfold run_optimization
      rw [hbcs]
      simp [Except.bind, find_endpoints_nodes, Bind.bind]
    · intro hd
      have hgcp : great_circle_points lat1 lon1 lat2 lon2 0 =
          .error .zeroDivision := by
        simp only [great_circle_points]
        rw [if_neg hd, if_pos trivial]
      have hbcs : build_corridor_slices lat1 lon1 lat2 lon2 0 offsets =
          .error .zeroDivision := by
        unfold build_corridor_slices
        rw [hgcp]
        rfl
      unfold run_optimization
      rw [hbcs]
      rfl
  · intro lat1 lon1 lat2 lon2 n cruise uw prov hn
    obtain ⟨slices, hok, hlen, hK⟩ :=
      @build_corridor_slices_ok lat1 lon1 lat2 lon2 [] n hn
    cases slices with
    | nil => rw [List.length_nil] at hlen; omega
    | cons l0 rest =>
      have hl0 : l0 = [] := by
        have := hK l0 (List.mem_cons_self _ _)
        simpa using this
      subst hl0
      have hfe : find_endpoints_nodes (([] : List Pt) :: rest) =
          .ok ((0, 0), (rest.length + 1 - 1, 0)) := by
        simp [find_endpoints_nodes]
      have hnl : nlookup (nodesOf (([] : List Pt) :: rest)) (0 : NodeId) =
          none := by
        rw [show ((0 : NodeId)) = ((0, 0) : NodeId) from rfl, nlookup_nodesOf]
        simp
      unfold run_optimization
      rw [hok]
      simp [Except.bind, Bind.bind, hfe, build_graph, hnl]

/-! ## Claim C6: layered lattice shape and complete-bipartite DAG -/

/-- C6: for `sliceCount ≥ 1` and a nonempty offsets list, the corridor has
exactly `sliceCount` layers of `len(offsets)` nodes each; every edge of the
graph built from it goes from a node `(i, j)` of layer `i` to a node
`(i+1, k)` of layer `i+1` (so the slice index strictly increases along every
edge, making the graph a DAG with the slice index as topological order), and
every such pair of nodes in consecutive layers is connected by an edge
(complete bipartite between consecutive layers). -/
theorem C6_lattice_and_graph (lat1 lon1 lat2 lon2 : ℝ) (n : ℕ)
    (offsets : List ℝ) (cruise : ℝ) (uw : Bool) (prov : Provider)
    (hn : 1 ≤ n) (hoff : offsets ≠ []) :
    ∃ slices, build_corridor_slices lat1 lon1 lat2 lon2 n offsets = .ok slices ∧
      slices.length = n ∧
      (∀ l ∈ slices, l.length = offsets.length) ∧
      (∀ e ∈ (build_graph slices cruise uw prov).edges, ∃ i j k,
        e.src = (i, j) ∧ e.dst = (i + 1, k) ∧ i + 1 < n ∧
        j < offsets.length ∧ k < offsets.length) ∧
      (∀ i j k, i + 1 < n → j < offsets.length → k < offsets.length →
        ∃ wt d, (⟨(i, j), (i + 1, k), wt, d⟩ : Edge) ∈
          (build_graph slices cruise uw prov).edges) := by
  obtain ⟨slices, hok, hlen, hK⟩ := build_corridor_slices_ok hn
  refine ⟨slices, hok, hlen, hK, ?_, ?_⟩
  · intro e he
    obtain ⟨t, ht, w, rfl⟩ := build_graph_edges_mem he
    obtain ⟨h1, h2, h3⟩ := mem_edgeTriples.mp ht
    have hg1 : slices.get? t.1 = some (slices.getD t.1 []) := by
      rw [List.getD_eq_getD_get?]
      rcases hx : slices.get? t.1 with _ | L
      · rw [List.get?_eq_none] at hx
        omega
      · rfl
    have hg2 : slices.get? (t.1 + 1) = some (slices.getD (t.1 + 1) []) := by
      rw [List.getD_eq_getD_get?]
      rcases hx : slices.get? (t.1 + 1) with _ | L
      · rw [List.get?_eq_none] at hx
        omega
      · rfl
    have hL1 : (slices.getD t.1 []).length = offsets.length :=
      hK _ (List.get?_mem hg1)
    have hL2 : (slices.getD (t.1 + 1) []).length = offsets.length :=
      hK _ (List.get?_mem hg2)
    have hj : t.2.1.1 < (slices.getD t.1 []).length := by
      by_contra hge
      push_neg at hge
      rw [List.get?_eq_none.mpr hge] at h2
      exact absurd h2 (by simp)
    have hk : t.2.2.1 < (slices.getD (t.1 + 1) []).length := by
      by_contra hge
      push_neg at hge
      rw [List.get?_eq_none.mpr hge] at h3
      exact absurd h3 (by simp)
    exact ⟨t.1, t.2.1.1, t.2.2.1, rfl, rfl, by omega, by omega, by omega⟩
  · intro i j k h1 h2 h3
    have hi1 : i < slices.length := by omega
    have hi2 : i + 1 < slices.length := by omega
    rcases hx1 : slices.get? i with _ | L1
    · rw [List.get?_eq_none] at hx1
      omega
    rcases hx2 : slices.get? (i + 1) with _ | L2
    · rw [List.get?_eq_none] at hx2
      omega
    have hd1 : slices.getD i [] = L1 := by
      rw [List.getD_eq_getD_get?, hx1]
      rfl
    have hd2 : slices.getD (i + 1) [] = L2 := by
      rw [List.getD_eq_getD_get?, hx2]
      rfl
    have hL1 : L1.length = offsets.length := hK _ (List.get?_mem hx1)
    have hL2 : L2.length = offsets.length := hK _ (List.get?_mem hx2)
    rcases hp1 : L1.get? j with _ | p1
    · rw [List.get?_eq_none] at hp1
      omega
    rcases hp2 : L2.get? k with _ | p2
    · rw [List.get?_eq_none] at hp2
      omega
    have ht : (i, (j, p1), (k, p2)) ∈ edgeTriples slices := by
      apply mem_edgeTriples.mpr
      refine ⟨by simpa using hi2, ?_, ?_⟩
      · rw [hd1]
        exact hp1
      · rw [hd2]
        exact hp2
    obtain ⟨w, hw⟩ := @build_graph_edges_complete _ cruise uw prov _ ht
    exact ⟨_, _, hw⟩

/-- C6 witness: concrete instantiation (degenerate two-slice corridor,
single zero offset) discharging `1 ≤ n` and the nonemptiness of the offsets
list. -/
theorem C6_lattice_and_graph_witness :
    ((1 : ℕ) ≤ 2 ∧ ([0] : List ℝ) ≠ []) ∧
    (∃ slices, build_corridor_slices 0 0 0 0 2 [0] = .ok slices ∧
      slices.length = 2 ∧
      (∀ l ∈ slices, l.length = ([0] : List ℝ).length) ∧
      (∀ e ∈ (build_graph slices 900 true (fun _ _ => none)).edges, ∃ i j k,
        e.src = (i, j) ∧ e.dst = (i + 1, k) ∧ i + 1 < 2 ∧
        j < ([0] : List ℝ).length ∧ k < ([0] : List ℝ).length) ∧
      (∀ i j k, i + 1 < 2 → j < ([0] : List ℝ).length →
        k < ([0] : List ℝ).length →
        ∃ wt d, (⟨(i, j), (i + 1, k), wt, d⟩ : Edge) ∈
          (build_graph slices 900 true (fun _ _ => none)).edges)) :=
  ⟨⟨by norm_num, by simp⟩,
   C6_lattice_and_graph 0 0 0 0 2 [0] 900 true (fun _ _ => none)
     (by norm_num) (by simp)⟩

/-! ## Spherical geometry: the haversine distance is `R` times the central
angle, and satisfies the spherical triangle inequality -/

theorem sin_half_sq (x : ℝ) : sin (x / 2) ^ 2 = (1 - cos x) / 2 := by
  have h := Real.cos_two_mul (x / 2)
  have h2 : 2 * (x / 2) = x := by ring
  rw [h2] at h
  have h3 := Real.sin_sq_add_cos_sq (x / 2)
  nlinarith

/-- The Euclidean inner product of the two unit vectors determined by the
radian coordinates: the cosine of the central angle. -/
noncomputable def sphInner (phi1 lam1 phi2 lam2 : ℝ) : ℝ :=
  (cos phi1 * cos lam1) * (cos phi2 * cos lam2) +
  (cos phi1 * sin lam1) * (cos phi2 * sin lam2) + sin phi1 * sin phi2

theorem sphInner_eq (phi1 lam1 phi2 lam2 : ℝ) :
    sphInner phi1 lam1 phi2 lam2 =
      cos phi1 * cos phi2 * cos (lam2 - lam1) + sin phi1 * sin phi2 := by
  unfold sphInner
  rw [Real.cos_sub]
  ring

theorem sphInner_self (phi lam : ℝ) : sphInner phi lam phi lam = 1 := by
  rw [sphInner_eq, sub_self, Real.cos_zero]
  have h1 := Real.sin_sq_add_cos_sq phi
  nlinarith

theorem havA_inner (phi1 lam1 phi2 lam2 : ℝ) :
    1 - 2 * havA phi1 lam1 phi2 lam2 = sphInner phi1 lam1 phi2 lam2 := by
  rw [sphInner_eq]
  unfold havA
  rw [sin_half_sq, sin_half_sq, Real.cos_sub]
  ring

theorem sph_unit (phi lam : ℝ) :
    (cos phi * cos lam) ^ 2 + (cos phi * sin lam) ^ 2 + sin phi ^ 2 = 1 := by
  have h1 := Real.sin_sq_add_cos_sq lam
  have h2 := Real.sin_sq_add_cos_sq phi
  nlinarith

theorem inner3_sq_le (u1 u2 u3 v1 v2 v3 : ℝ)
    (hu : u1 ^ 2 + u2 ^ 2 + u3 ^ 2 = 1) (hv : v1 ^ 2 + v2 ^ 2 + v3 ^ 2 = 1) :
    (u1 * v1 + u2 * v2 + u3 * v3) ^ 2 ≤ 1 := by
  nlinarith [sq_nonneg (u1 * v2 - u2 * v1), sq_nonneg (u1 * v3 - u3 * v1),
    sq_nonneg (u2 * v3 - u3 * v2)]

theorem gram3 (u1 u2 u3 v1 v2 v3 w1 w2 w3 : ℝ)
    (hu : u1 ^ 2 + u2 ^ 2 + u3 ^ 2 = 1) (hv : v1 ^ 2 + v2 ^ 2 + v3 ^ 2 = 1)
    (hw : w1 ^ 2 + w2 ^ 2 + w3 ^ 2 = 1) :
    ((u1 * v1 + u2 * v2 + u3 * v3) * (v1 * w1 + v2 * w2 + v3 * w3) -
      (u1 * w1 + u2 * w2 + u3 * w3)) ^ 2 ≤
    (1 - (u1 * v1 + u2 * v2 + u3 * v3) ^ 2) *
      (1 - (v1 * w1 + v2 * w2 + v3 * w3) ^ 2) := by
  have hid : (1 - (u1 * v1 + u2 * v2 + u3 * v3) ^ 2) *
      (1 - (v1 * w1 + v2 * w2 + v3 * w3) ^ 2) -
      ((u1 * v1 + u2 * v2 + u3 * v3) * (v1 * w1 + v2 * w2 + v3 * w3) -
        (u1 * w1 + u2 * w2 + u3 * w3)) ^ 2 =
      (u1 * (v2 * w3 - v3 * w2) - u2 * (v1 * w3 - v3 * w1) +
        u3 * (v1 * w2 - v2 * w1)) ^ 2 := by
    linear_combination
      ((v1 * w1 + v2 * w2 + v3 * w3) ^ 2 -
        (v1 ^ 2 + v2 ^ 2 + v3 ^ 2) * (w1 ^ 2 + w2 ^ 2 + w3 ^ 2)) * hu +
      ((u1 * w1 + u2 * w2 + u3 * w3) ^ 2 -
        (w1 ^ 2 + w2 ^ 2 + w3 ^ 2)) * hv +
      ((u1 * v1 + u2 * v2 + u3 * v3) ^ 2 - 1) * hw
  linarith [hid, sq_nonneg (u1 * (v2 * w3 - v3 * w2) -
    u2 * (v1 * w3 - v3 * w1) + u3 * (v1 * w2 - v2 * w1))]

/-- Triangle inequality for `arccos` of pairwise inner products, assuming the
key Cauchy-Schwarz bound relating the three values. -/
theorem arccos_triangle_aux {c1 c2 c3 : ℝ}
    (h1 : |c1| ≤ 1) (h2 : |c2| ≤ 1)
    (hk : c1 * c2 - Real.sqrt (1 - c1 ^ 2) * Real.sqrt (1 - c2 ^ 2) ≤ c3) :
    arccos c3 ≤ arccos c1 + arccos c2 := by
  rcases le_or_lt π (arccos c1 + arccos c2) with hge | hlt
  · exact le_trans (Real.arccos_le_pi c3) hge
  · have hb1 : -1 ≤ c1 := neg_le_of_abs_le h1
    have hb1' : c1 ≤ 1 := le_of_abs_le h1
    have hb2 : -1 ≤ c2 := neg_le_of_abs_le h2
    have hb2' : c2 ≤ 1 := le_of_abs_le h2
    have hcos : cos (arccos c1 + arccos c2) =
        c1 * c2 - Real.sqrt (1 - c1 ^ 2) * Real.sqrt (1 - c2 ^ 2) := by
      rw [Real.cos_add, Real.cos_arccos hb1 hb1', Real.cos_arccos hb2 hb2',
        Real.sin_arccos, Real.sin_arccos]
    have hmono0 : cos (arccos c1 + arccos c2) ≤ c3 := by
      rw [hcos]
      exact hk
    have hmono : arccos c3 ≤ arccos (cos (arccos c1 + arccos c2)) := by
      rw [Real.arccos_eq_pi_div_two_sub_arcsin,
        Real.arccos_eq_pi_div_two_sub_arcsin]
      have h := Real.monotone_arcsin hmono0
      linarith
    calc arccos c3 ≤ arccos (cos (arccos c1 + arccos c2)) := hmono
      _ = arccos c1 + arccos c2 := Real.arccos_cos
          (add_nonneg (Real.arccos_nonneg _) (Real.arccos_nonneg _))
          (le_of_lt hlt)
  
theorem havA_nonneg {lat1 lat2 : ℝ} (lon1 lon2 : ℝ)
    (h1 : |lat1| ≤ 90) (h2 : |lat2| ≤ 90) :
    0 ≤ havA (deg2rad lat1) (deg2rad lon1) (deg2rad lat2) (deg2rad lon2) := by
  have hc1 : 0 ≤ cos (deg2rad lat1) := by
    apply Real.cos_nonneg_of_mem_Icc
    constructor
    · rw [deg2rad]
      rw [abs_le] at h1
      nlinarith [Real.pi_pos]
    · rw [deg2rad]
      rw [abs_le] at h1
      nlinarith [Real.pi_pos]
  have hc2 : 0 ≤ cos (deg2rad lat2) := by
    apply Real.cos_nonneg_of_mem_Icc
    constructor
    · rw [deg2rad]
      rw [abs_le] at h2
      nlinarith [Real.pi_pos]
    · rw [deg2rad]
      rw [abs_le] at h2
      nlinarith [Real.pi_pos]
  unfold havA
  have hs1 := sq_nonneg (sin ((deg2rad lat2 - deg2rad lat1) / 2))
  have hs2 := sq_nonneg (sin ((deg2rad lon2 - deg2rad lon1) / 2))
  positivity

theorem havA_le_one (phi1 lam1 phi2 lam2 : ℝ) :
    havA phi1 lam1 phi2 lam2 ≤ 1 := by
  have h := inner3_sq_le (cos phi1 * cos lam1) (cos phi1 * sin lam1) (sin phi1)
    (cos phi2 * cos lam2) (cos phi2 * sin lam2) (sin phi2)
    (sph_unit phi1 lam1) (sph_unit phi2 lam2)
  have h3 : ((cos phi1 * cos lam1) * (cos phi2 * cos lam2) +
      (cos phi1 * sin lam1) * (cos phi2 * sin lam2) + sin phi1 * sin phi2) =
      sphInner phi1 lam1 phi2 lam2 := rfl
  rw [h3] at h
  have h2 := havA_inner phi1 lam1 phi2 lam2
  nlinarith [sq_nonneg (sphInner phi1 lam1 phi2 lam2 + 1)]

theorem sphInner_abs_le (phi1 lam1 phi2 lam2 : ℝ) :
    |sphInner phi1 lam1 phi2 lam2| ≤ 1 := by
  have h := inner3_sq_le (cos phi1 * cos lam1) (cos phi1 * sin lam1) (sin phi1)
    (cos phi2 * cos lam2) (cos phi2 * sin lam2) (sin phi2)
    (sph_unit phi1 lam1) (sph_unit phi2 lam2)
  have h3 : ((cos phi1 * cos lam1) * (cos phi2 * cos lam2) +
      (cos phi1 * sin lam1) * (cos phi2 * sin lam2) + sin phi1 * sin phi2) =
      sphInner phi1 lam1 phi2 lam2 := rfl
  rw [h3] at h
  rw [abs_le]
  constructor
  · nlinarith [sq_nonneg (sphInner phi1 lam1 phi2 lam2 + 1)]
  · nlinarith [sq_nonneg (sphInner phi1 lam1 phi2 lam2 - 1)]

theorem atan2_sqrt_eq_arccos {a : ℝ} (h0 : 0 ≤ a) (hle : a ≤ 1) :
    2 * atan2 (Real.sqrt a) (Real.sqrt (1 - a)) = arccos (1 - 2 * a) := by
  rcases lt_or_eq_of_le hle with hlt | heq
  · have hpos : 0 < Real.sqrt (1 - a) := Real.sqrt_pos.mpr (by linarith)
    have hat : atan2 (Real.sqrt a) (Real.sqrt (1 - a)) =
        arctan (Real.sqrt a / Real.sqrt (1 - a)) := by
      unfold atan2
      rw [if_pos hpos]
    have hsa1 : Real.sqrt a < 1 := by
      have h := Real.sqrt_lt_sqrt h0 hlt
      rwa [Real.sqrt_one] at h
    have ht0 : 0 ≤ arcsin (Real.sqrt a) :=
      Real.arcsin_nonneg.mpr (Real.sqrt_nonneg a)
    have htlt : arcsin (Real.sqrt a) < π / 2 :=
      Real.arcsin_lt_pi_div_two.mpr hsa1
    have hsin : sin (arcsin (Real.sqrt a)) = Real.sqrt a :=
      Real.sin_arcsin (by linarith [Real.sqrt_nonneg a]) (le_of_lt hsa1)
    have hcos : cos (arcsin (Real.sqrt a)) = Real.sqrt (1 - a) := by
      rw [Real.cos_arcsin, Real.sq_sqrt h0]
    have harct : arctan (Real.sqrt a / Real.sqrt (1 - a)) =
        arcsin (Real.sqrt a) := by
      conv_lhs => rw [← hsin, ← hcos]
      rw [← Real.tan_eq_sin_div_cos,
        Real.arctan_tan (by linarith [Real.pi_pos]) htlt]
    have hcos2 : cos (2 * arcsin (Real.sqrt a)) = 1 - 2 * a := by
      rw [Real.cos_two_mul, hcos, Real.sq_sqrt (by linarith)]
      ring
    rw [hat, harct, ← hcos2,
      Real.arccos_cos (by linarith) (by linarith)]
  · subst heq
    rw [show (1 : ℝ) - 1 = 0 by norm_num, Real.sqrt_zero, Real.sqrt_one]
    rw [atan2_pos_zero one_pos,
      show (1 : ℝ) - 2 * 1 = -1 by norm_num, Real.arccos_neg_one]
    ring

theorem haversine_eq_arccos {lat1 lat2 : ℝ} (lon1 lon2 : ℝ)
    (h1 : |lat1| ≤ 90) (h2 : |lat2| ≤ 90) :
    haversine_km lat1 lon1 lat2 lon2 =
      R_EARTH_KM * arccos (sphInner (deg2rad lat1) (deg2rad lon1)
        (deg2rad lat2) (deg2rad lon2)) := by
  have h0 := havA_nonneg lon1 lon2 h1 h2
  have hle := havA_le_one (deg2rad lat1) (deg2rad lon1) (deg2rad lat2)
    (deg2rad lon2)
  simp only [haversine_km]
  rw [atan2_sqrt_eq_arccos h0 hle, havA_inner]

theorem haversine_self (lat lon : ℝ) : haversine_km lat lon lat lon = 0 := by
  have h : havA (deg2rad lat) (deg2rad lon) (deg2rad lat) (deg2rad lon) = 0 := by
    unfold havA
    rw [sub_self, sub_self]
    norm_num [Real.sin_zero]
  simp only [haversine_km]
  rw [h, Real.sqrt_zero, show (1 : ℝ) - 0 = 1 by norm_num, Real.sqrt_one,
    atan2_zero_pos one_pos]
  ring

theorem haversine_triangle {lat1 lat2 lat3 : ℝ} (lon1 lon2 lon3 : ℝ)
    (h1 : |lat1| ≤ 90) (h2 : |lat2| ≤ 90) (h3 : |lat3| ≤ 90) :
    haversine_km lat1 lon1 lat3 lon3 ≤
      haversine_km lat1 lon1 lat2 lon2 + haversine_km lat2 lon2 lat3 lon3 := by
  rw [haversine_eq_arccos lon1 lon3 h1 h3, haversine_eq_arccos lon1 lon2 h1 h2,
    haversine_eq_arccos lon2 lon3 h2 h3]
  rw [← mul_add]
  apply mul_le_mul_of_nonneg_left _ (by norm_num [R_EARTH_KM] : (0:ℝ) ≤ R_EARTH_KM)
  set p1 := deg2rad lat1
  set q1 := deg2rad lon1
  set p2 := deg2rad lat2
  set q2 := deg2rad lon2
  set p3 := deg2rad lat3
  set q3 := deg2rad lon3
  apply arccos_triangle_aux (sphInner_abs_le p1 q1 p2 q2)
    (sphInner_abs_le p2 q2 p3 q3)
  have hg := gram3 (cos p1 * cos q1) (cos p1 * sin q1) (sin p1)
    (cos p2 * cos q2) (cos p2 * sin q2) (sin p2)
    (cos p3 * cos q3) (cos p3 * sin q3) (sin p3)
    (sph_unit p1 q1) (sph_unit p2 q2) (sph_unit p3 q3)
  have e12 : (cos p1 * cos q1) * (cos p2 * cos q2) +
      (cos p1 * sin q1) * (cos p2 * sin q2) + sin p1 * sin p2 =
      sphInner p1 q1 p2 q2 := rfl
  have e23 : (cos p2 * cos q2) * (cos p3 * cos q3) +
      (cos p2 * sin q2) * (cos p3 * sin q3) + sin p2 * sin p3 =
      sphInner p2 q2 p3 q3 := rfl
  have e13 : (cos p1 * cos q1) * (cos p3 * cos q3) +
      (cos p1 * sin q1) * (cos p3 * sin q3) + sin p1 * sin p3 =
      sphInner p1 q1 p3 q3 := rfl
  rw [e12, e23, e13] at hg
  set c1 := sphInner p1 q1 p2 q2
  set c2 := sphInner p2 q2 p3 q3
  set c3 := sphInner p1 q1 p3 q3
  have habs := abs_sub_abs_le_abs_sub (c1 * c2) c3
  have hs : c1 * c2 - c3 ≤ |c1 * c2 - c3| := le_abs_self _
  have hsq : |c1 * c2 - c3| ≤ Real.sqrt (1 - c1 ^ 2) * Real.sqrt (1 - c2 ^ 2) := by
    have hc1 : (0 : ℝ) ≤ 1 - c1 ^ 2 := by
      have ha := sphInner_abs_le p1 q1 p2 q2
      have h' : c1 ^ 2 ≤ 1 := by
        rw [← sq_abs]
        nlinarith [abs_nonneg c1, ha]
      linarith
    have hc2 : (0 : ℝ) ≤ 1 - c2 ^ 2 := by
      have ha := sphInner_abs_le p2 q2 p3 q3
      have h' : c2 ^ 2 ≤ 1 := by
        rw [← sq_abs]
        nlinarith [abs_nonneg c2, ha]
      linarith
    rw [← Real.sqrt_mul hc1]
    rw [show |c1 * c2 - c3| = Real.sqrt ((c1 * c2 - c3) ^ 2) by
      rw [Real.sqrt_sq_eq_abs]]
    exact Real.sqrt_le_sqrt hg
  linarith

/-! ## Latitude validity of corridor nodes -/

theorem rad2deg_abs_le_90 {t : ℝ} (h : |t| ≤ π / 2) : |rad2deg t| ≤ 90 := by
  rw [rad2deg, abs_div, abs_mul]
  rw [abs_of_pos Real.pi_pos]
  rw [show |(180 : ℝ)| = 180 by norm_num]
  rw [div_le_iff Real.pi_pos]
  nlinarith [Real.pi_pos, abs_nonneg t]

theorem atan2_abs_le_pi_div_two {y x : ℝ} (hx : 0 ≤ x) :
    |atan2 y x| ≤ π / 2 := by
  unfold atan2
  rcases lt_or_eq_of_le hx with hx' | hx'
  · rw [if_pos hx']
    rw [abs_le]
    exact ⟨le_of_lt (Real.neg_pi_div_two_lt_arctan _),
      le_of_lt (Real.arctan_lt_pi_div_two _)⟩
  · rw [if_neg (by rw [← hx']; exact lt_irrefl 0),
      if_neg (by rw [← hx']; exact lt_irrefl 0)]
    have hpi := Real.pi_pos
    split_ifs with hy1 hy2
    · rw [abs_of_pos (by linarith)]
    · rw [abs_of_neg (by linarith)]
      linarith
    · rw [abs_zero]
      linarith

theorem gcPoint_lat_valid (phi1 lam1 phi2 lam2 dlt f : ℝ) :
    |(gcPoint phi1 lam1 phi2 lam2 dlt f).1| ≤ 90 := by
  apply rad2deg_abs_le_90
  exact atan2_abs_le_pi_div_two (Real.sqrt_nonneg _)

theorem destination_point_lat_valid (lat lon b d : ℝ) :
    |(destination_point lat lon b d).1| ≤ 90 := by
  apply rad2deg_abs_le_90
  rw [abs_le]
  exact ⟨Real.neg_pi_div_two_le_arcsin _, Real.arcsin_le_pi_div_two _⟩

theorem corridorNode_lat_valid {midlat : ℝ} (midlon brg off : ℝ)
    (h : |midlat| ≤ 90) : |(corridorNode midlat midlon brg off).1| ≤ 90 := by
  unfold corridorNode
  split_ifs with h0 hpos
  · exact h
  · exact destination_point_lat_valid _ _ _ _
  · exact destination_point_lat_valid _ _ _ _

theorem bcs_lat_valid {lat1 lon1 lat2 lon2 : ℝ} {n : ℕ} {offsets : List ℝ}
    {slices : List (List Pt)}
    (hok : build_corridor_slices lat1 lon1 lat2 lon2 n offsets = .ok slices)
    (h1 : |lat1| ≤ 90) :
    ∀ l ∈ slices, ∀ p ∈ l, |p.1| ≤ 90 := by
  unfold build_corridor_slices at hok
  rcases hgc : great_circle_points lat1 lon1 lat2 lon2 n with err | gc
  · rw [hgc] at hok
    exact absurd hok (by simp [Except.map])
  · rw [hgc] at hok
    simp only [Except.map, Except.ok.injEq] at hok
    have hgcv : ∀ p ∈ gc, |p.1| ≤ 90 := by
      simp only [great_circle_points] at hgc
      rcases eq_or_ne (gcDelta lat1 lon1 lat2 lon2) 0 with hd | hd
      · rw [if_pos hd] at hgc
        simp only [Except.ok.injEq] at hgc
        intro p hp
        rw [← hgc] at hp
        rw [List.eq_of_mem_replicate hp]
        exact h1
      · rw [if_neg hd] at hgc
        rcases eq_or_ne n 0 with hn | hn
        · rw [if_pos hn] at hgc
          exact absurd hgc (by simp)
        · rw [if_neg hn] at hgc
          simp only [Except.ok.injEq] at hgc
          intro p hp
          rw [← hgc] at hp
          obtain ⟨i, _, rfl⟩ := List.mem_map.mp hp
          exact gcPoint_lat_valid _ _ _ _ _ _
    have hgd : ∀ i : ℕ, |(gc.getD i ((0 : ℝ), (0 : ℝ))).1| ≤ 90 := by
      intro i
      rcases hx : gc.get? i with _ | p
      · rw [List.getD_eq_getD_get?, hx]
        norm_num
      · rw [List.getD_eq_getD_get?, hx]
        exact hgcv _ (List.get?_mem hx)
    intro l hl p hp
    rw [← hok] at hl
    obtain ⟨i, _, rfl⟩ := List.mem_map.mp hl
    obtain ⟨off, _, rfl⟩ := List.mem_map.mp hp
    apply corridorNode_lat_valid
    have ha := hgd i
    have hb := hgd (i + 1)
    rw [abs_le] at ha hb ⊢
    constructor
    · linarith [ha.1, hb.1]
    · linarith [ha.2, hb.2]

/-! ## Claim C1: heuristic admissibility -/

/-- The coordinates the graph's node dictionary associates with a node id
(the pair `heuristic` reads). -/
def nodeCoord (slices : List (List Pt)) (u : NodeId) : Pt :=
  (nlookup (nodesOf slices) u).getD (0, 0)

theorem nodeCoord_lat_valid {slices : List (List Pt)}
    (hval : ∀ l ∈ slices, ∀ p ∈ l, |p.1| ≤ 90) (u : NodeId) :
    |(nodeCoord slices u).1| ≤ 90 := by
  obtain ⟨i, j⟩ := u
  unfold nodeCoord
  rw [nlookup_nodesOf]
  rcases hx : slices.get? i with _ | l
  · simp only [Option.none_bind, Option.getD_none]
    norm_num
  · rcases hy : l.get? j with _ | p
    · simp only [Option.some_bind, hy, Option.getD_none]
      norm_num
    · simp only [Option.some_bind, hy, Option.getD_some]
      exact hval l (List.get?_mem hx) p (List.get?_mem hy)

theorem pathcost_ge {slices : List (List Pt)} {cruise : ℝ} {prov : Provider}
    (hp : ∀ x y, prov x y = none) (hcr : 40 ≤ cruise)
    (hval : ∀ l ∈ slices, ∀ p ∈ l, |p.1| ≤ 90)
    {u g : NodeId} {c : ℝ}
    (hpc : PathCost (build_graph slices cruise true prov).edges g u c) :
    haversine_km (nodeCoord slices u).1 (nodeCoord slices u).2
      (nodeCoord slices g).1 (nodeCoord slices g).2 ≤ c * cruise := by
  induction hpc with
  | refl =>
    rw [haversine_self]
    nlinarith
  | step e c' he hrest ih =>
    have hedges : (build_graph slices cruise true prov).edges =
        (edgeTriples slices).map (fun t => mkEdgeT cruise t ⟨0, 0⟩) := by
      unfold build_graph
      rw [processEdges_fail hp]
    rw [hedges] at he
    obtain ⟨t, ht, rfl⟩ := List.mem_map.mp he
    obtain ⟨h1, h2, h3⟩ := mem_edgeTriples.mp ht
    have hgd1 : slices.get? t.1 = some (slices.getD t.1 []) := by
      rw [List.getD_eq_getD_get?]
      rcases hx : slices.get? t.1 with _ | L
      · rw [List.get?_eq_none] at hx
        omega
      · rfl
    have hgd2 : slices.get? (t.1 + 1) = some (slices.getD (t.1 + 1) []) := by
      rw [List.getD_eq_getD_get?]
      rcases hx : slices.get? (t.1 + 1) with _ | L
      · rw [List.get?_eq_none] at hx
        omega
      · rfl
    have hc1 : nodeCoord slices (t.1, t.2.1.1) = t.2.1.2 := by
      unfold nodeCoord
      rw [nlookup_nodesOf, hgd1]
      simp only [Option.bind, h2, Option.getD_some]
    have hc2 : nodeCoord slices (t.1 + 1, t.2.2.1) = t.2.2.2 := by
      unfold nodeCoord
      rw [nlookup_nodesOf, hgd2]
      simp only [Option.bind, h3, Option.getD_some]
    have hv1 : |t.2.1.2.1| ≤ 90 :=
      hval _ (List.get?_mem hgd1) _ (List.get?_mem h2)
    have hv2 : |t.2.2.2.1| ≤ 90 :=
      hval _ (List.get?_mem hgd2) _ (List.get?_mem h3)
    have hvg : |(nodeCoord slices g).1| ≤ 90 := nodeCoord_lat_valid hval g
    have htri := @haversine_triangle t.2.1.2.1 t.2.2.2.1
      ((nodeCoord slices g).1) t.2.1.2.2 t.2.2.2.2
      (nodeCoord slices g).2 hv1 hv2 hvg
    have hwt : (mkEdgeT cruise t ⟨0, 0⟩).weight =
        haversine_km t.2.1.2.1 t.2.1.2.2 t.2.2.2.1 t.2.2.2.2 / cruise := by
      show haversine_km _ _ _ _ /
        max 40 (cruise + tailwind_component_kmh 0 0 _) = _
      rw [tailwind_zero_speed, add_zero, max_eq_right hcr]
    have hsrc : (mkEdgeT cruise t ⟨0, 0⟩).src = (t.1, t.2.1.1) := rfl
    have hdst : (mkEdgeT cruise t ⟨0, 0⟩).dst = (t.1 + 1, t.2.2.1) := rfl
    rw [hdst, hc2] at ih
    rw [hsrc, hc1]
    have hcpos : (0 : ℝ) < cruise := by linarith
    have hwc : (mkEdgeT cruise t ⟨0, 0⟩).weight * cruise =
        haversine_km t.2.1.2.1 t.2.1.2.2 t.2.2.2.1 t.2.2.2.2 := by
      rw [hwt]
      field_simp
    calc haversine_km t.2.1.2.1 t.2.1.2.2 (nodeCoord slices g).1
          (nodeCoord slices g).2
        ≤ haversine_km t.2.1.2.1 t.2.1.2.2 t.2.2.2.1 t.2.2.2.2 +
          haversine_km t.2.2.2.1 t.2.2.2.2 (nodeCoord slices g).1
            (nodeCoord slices g).2 := htri
      _ ≤ (mkEdgeT cruise t ⟨0, 0⟩).weight * cruise + c' * cruise := by
          rw [hwc]
          linarith
      _ = ((mkEdgeT cruise t ⟨0, 0⟩).weight + c') * cruise := by ring

/-- C1 (amended): for every corridor graph `build_graph` constructs from a
`build_corridor_slices` corridor (origin latitude valid) in a zero-wind
configuration — the provider fails on every query, so every edge uses the
zero-wind fallback — and `cruise ≥ 40`, the A* heuristic
`distance(n, goal) / cruiseSpeedKmh` is a true lower bound on the total
edge-weight of every path from `n` to the goal node: it is admissible.
(The restriction to zero-wind configurations is forced: with a positive
tailwind component the ground speed exceeds the cruise speed and the bound
fails — see the counterexample.) -/
theorem C1_amended (lat1 lon1 lat2 lon2 : ℝ) (n : ℕ) (offsets : List ℝ)
    (cruise : ℝ) (prov : Provider) (slices : List (List Pt))
    (u g : NodeId) (c : ℝ)
    (hp : ∀ x y, prov x y = none) (hcr : 40 ≤ cruise)
    (hlat1 : |lat1| ≤ 90)
    (hbcs : build_corridor_slices lat1 lon1 lat2 lon2 n offsets = .ok slices)
    (hpc : PathCost (build_graph slices cruise true prov).edges g u c) :
    heuristic u g (build_graph slices cruise true prov) cruise ≤ c := by
  have hval := bcs_lat_valid hbcs hlat1
  have h := pathcost_ge hp hcr hval hpc
  have hc0 : (0 : ℝ) < cruise := by linarith
  have hh : heuristic u g (build_graph slices cruise true prov) cruise =
      haversine_km (nodeCoord slices u).1 (nodeCoord slices u).2
        (nodeCoord slices g).1 (nodeCoord slices g).2 / cruise := rfl
  rw [hh, div_le_iff₀ hc0]
  exact h

/-- C1 witness: the amended theorem instantiated on a concrete degenerate
corridor with a failing provider, for the one-edge path from the start to the
goal node. -/
theorem C1_amended_witness :
    build_corridor_slices 0 0 0 0 2 [0] = .ok [[(0, 0)], [(0, 0)]] ∧
    ∃ c : ℝ, PathCost (build_graph [[(0, 0)], [(0, 0)]] 900 true
        (fun _ _ => none)).edges (1, 0) (0, 0) c ∧
      heuristic (0, 0) (1, 0)
        (build_graph [[(0, 0)], [(0, 0)]] 900 true (fun _ _ => none)) 900 ≤
        c := by
  have hbcs : build_corridor_slices 0 0 0 0 2 [0] =
      .ok [[(0, 0)], [(0, 0)]] := by
    unfold build_corridor_slices
    rw [gcp_self]
    simp only [Except.map, Except.ok.injEq]
    norm_num [List.range_succ, corridorNode, List.getD]
  have hmem : mkEdgeT 900 (0, (0, ((0 : ℝ), (0 : ℝ))), (0, ((0 : ℝ), (0 : ℝ))))
      ⟨0, 0⟩ ∈ (build_graph [[(0, 0)], [(0, 0)]] 900 true
        (fun _ _ => none)).edges := by
    unfold build_graph
    rw [processEdges_fail (fun _ _ => rfl)]
    have htr : edgeTriples [[((0 : ℝ), (0 : ℝ))], [(0, 0)]] =
        [(0, (0, (0, 0)), (0, (0, 0)))] := by
      simp [edgeTriples, enumFromN, List.range_succ]
    simp only [htr, List.map_cons, List.map_nil]
    exact List.mem_singleton.mpr rfl
  have hpc : PathCost (build_graph [[(0, 0)], [(0, 0)]] 900 true
      (fun _ _ => none)).edges (1, 0) (0, 0)
      ((mkEdgeT 900 (0, (0, ((0 : ℝ), (0 : ℝ))), (0, ((0 : ℝ), (0 : ℝ))))
        ⟨0, 0⟩).weight + 0) :=
    PathCost.step _ 0 hmem PathCost.refl
  exact ⟨hbcs, _, hpc,
    C1_amended 0 0 0 0 2 [0] 900 _ _ (0, 0) (1, 0) _ (fun _ _ => rfl)
      (by norm_num) (by norm_num) hbcs hpc⟩

/-! ## A concrete equatorial corridor with tailwind (C1 counterexample) -/

theorem deg2rad_10 : deg2rad 10 = π / 18 := by
  rw [deg2rad]
  ring

theorem deg2rad_5over2 : deg2rad (5 / 2) = π / 72 := by
  rw [deg2rad]
  ring

theorem deg2rad_15over2 : deg2rad (15 / 2) = π / 24 := by
  rw [deg2rad]
  ring

theorem sin_pi_div_18_pos : 0 < sin (π / 18) :=
  Real.sin_pos_of_pos_of_lt_pi (by positivity) (by linarith [Real.pi_pos])

theorem gcDelta_equator10 : gcDelta 0 0 0 10 = π / 18 := by
  unfold gcDelta havA
  rw [deg2rad_zero, deg2rad_10]
  rw [show ((π / 18 : ℝ) - 0) / 2 = π / 36 by ring,
    show ((0 : ℝ) - 0) / 2 = 0 by ring]
  rw [Real.sin_zero, Real.cos_zero]
  rw [show (0 : ℝ) ^ 2 + 1 * 1 * sin (π / 36) ^ 2 = sin (π / 36) ^ 2 by ring]
  have hpos : 0 ≤ sin (π / 36) :=
    le_of_lt (Real.sin_pos_of_pos_of_lt_pi (by positivity)
      (by linarith [Real.pi_pos]))
  rw [Real.sqrt_sq hpos, min_eq_right (Real.sin_le_one _),
    Real.arcsin_sin (by linarith [Real.pi_pos]) (by linarith [Real.pi_pos])]
  ring

theorem gcPoint_equator {dlt f : ℝ} (hs : sin dlt ≠ 0)
    (h1 : -π < f * dlt) (h2 : f * dlt ≤ π) :
    gcPoint 0 0 0 dlt dlt f = (0, rad2deg (f * dlt)) := by
  simp only [gcPoint]
  rw [Real.cos_zero, Real.sin_zero]
  have hy : sin ((1 - f) * dlt) / sin dlt * 1 * 0 +
      sin (f * dlt) / sin dlt * 1 * sin dlt = sin (f * dlt) := by
    field_simp
  have hx : sin ((1 - f) * dlt) / sin dlt * 1 * 1 +
      sin (f * dlt) / sin dlt * 1 * cos dlt = cos (f * dlt) := by
    rw [show (1 - f) * dlt = dlt - f * dlt by ring, Real.sin_sub]
    field_simp
    ring
  have hz : sin ((1 - f) * dlt) / sin dlt * 0 +
      sin (f * dlt) / sin dlt * 0 = 0 := by ring
  rw [hy, hx, hz]
  have hone : cos (f * dlt) * cos (f * dlt) + sin (f * dlt) * sin (f * dlt)
      = 1 := by
    nlinarith [Real.sin_sq_add_cos_sq (f * dlt)]
  rw [hone, Real.sqrt_one, atan2_zero_pos one_pos, rad2deg_zero,
    atan2_sin_cos h1 h2]

theorem gcp_equator10 : great_circle_points 0 0 0 10 2 =
    .ok [(0, 0), (0, 5), (0, 10)] := by
  have hpi := Real.pi_pos
  have hs : sin (π / 18) ≠ 0 := ne_of_gt sin_pi_div_18_pos
  simp only [great_circle_points]
  rw [if_neg (by rw [gcDelta_equator10]; positivity), if_neg (by norm_num)]
  rw [show List.range (2 + 1) = [0, 1, 2] by rfl]
  simp only [List.map_cons, List.map_nil]
  rw [deg2rad_zero, deg2rad_10, gcDelta_equator10]
  rw [show ((0 : ℕ) : ℝ) / ((2 : ℕ) : ℝ) = 0 by norm_num,
    show ((1 : ℕ) : ℝ) / ((2 : ℕ) : ℝ) = 1/2 by norm_num,
    show ((2 : ℕ) : ℝ) / ((2 : ℕ) : ℝ) = 1 by norm_num]
  rw [gcPoint_equator hs (by nlinarith) (by nlinarith),
    gcPoint_equator hs (by nlinarith) (by nlinarith),
    gcPoint_equator hs (by nlinarith) (by nlinarith)]
  rw [show (0 : ℝ) * (π / 18) = 0 by ring, rad2deg_zero]
  rw [show (1 / 2 : ℝ) * (π / 18) = π / 36 by ring,
    show (1 : ℝ) * (π / 18) = π / 18 by ring]
  rw [rad2deg, rad2deg]
  have e1 : π / 36 * 180 / π = 5 := by
    field_simp
    ring
  have e2 : π / 18 * 180 / π = 10 := by
    field_simp
    ring
  rw [e1, e2]

theorem bcs_equator10 : build_corridor_slices 0 0 0 10 2 [0] =
    .ok [[(0, 5 / 2)], [(0, 15 / 2)]] := by
  unfold build_corridor_slices
  rw [gcp_equator10]
  simp only [Except.map, Except.ok.injEq]
  norm_num [List.range_succ, corridorNode, List.getD]

theorem bearing_equator : bearing_between 0 (5 / 2) 0 (15 / 2) = 90 := by
  simp only [bearing_between]
  rw [deg2rad_zero, deg2rad_5over2, deg2rad_15over2]
  rw [show (π / 24 : ℝ) - π / 72 = π / 36 by ring]
  rw [Real.sin_zero, Real.cos_zero]
  rw [mul_one, show (1 : ℝ) * 0 - 0 * 1 * cos (π / 36) = 0 by ring]
  have hspos : 0 < sin (π / 36) :=
    Real.sin_pos_of_pos_of_lt_pi (by positivity) (by linarith [Real.pi_pos])
  rw [atan2_pos_zero hspos, rad2deg_pi_div_two]
  rw [show (90 : ℝ) + 360 = 450 by norm_num, pymod_450_360]

theorem tailwind_100_270_90 : tailwind_component_kmh 100 270 90 = 100 := by
  rw [tailwind_eq]
  rw [show (270 : ℝ) + 180 = 450 by norm_num, pymod_450_360]
  rw [show (90 : ℝ) - 90 + 180 = 180 by norm_num, pymod_180_360]
  rw [sub_self, deg2rad_zero, Real.cos_zero]
  ring

theorem haversine_equator_val : haversine_km 0 (5 / 2) 0 (15 / 2) =
    R_EARTH_KM * (π / 36) := by
  simp only [haversine_km, havA]
  rw [deg2rad_zero, deg2rad_5over2, deg2rad_15over2]
  rw [show ((0 : ℝ) - 0) / 2 = 0 by ring,
    show ((π / 24 : ℝ) - π / 72) / 2 = π / 72 by ring]
  rw [Real.sin_zero, Real.cos_zero]
  rw [show (0 : ℝ) ^ 2 + 1 * 1 * sin (π / 72) ^ 2 = sin (π / 72) ^ 2 by ring]
  have hsp : 0 ≤ sin (π / 72) :=
    le_of_lt (Real.sin_pos_of_pos_of_lt_pi (by positivity)
      (by linarith [Real.pi_pos]))
  rw [Real.sqrt_sq hsp]
  rw [show (1 : ℝ) - sin (π / 72) ^ 2 = cos (π / 72) ^ 2 by
    nlinarith [Real.sin_sq_add_cos_sq (π / 72)]]
  have hcp : 0 ≤ cos (π / 72) := by
    apply Real.cos_nonneg_of_mem_Icc
    constructor
    · nlinarith [Real.pi_pos]
    · nlinarith [Real.pi_pos]
  rw [Real.sqrt_sq hcp]
  rw [atan2_sin_cos (by nlinarith [Real.pi_pos]) (by nlinarith [Real.pi_pos])]
  ring

/-- The wind provider used by the C1 counterexample: a uniform 100 km/h wind
blowing from 270 degrees (a pure tailwind for an eastbound leg). -/
def C1prov : Provider := fun _ _ => some ⟨100, 270⟩

theorem C1_edges : (build_graph [[(0, 5 / 2)], [(0, 15 / 2)]] 900 true
      C1prov).edges =
    [mkEdgeT 900 (0, (0, (0, 5 / 2)), (0, (0, 15 / 2))) ⟨100, 270⟩] := by
  unfold build_graph
  have htr : edgeTriples [[((0 : ℝ), (5 / 2 : ℝ))], [(0, 15 / 2)]] =
      [(0, (0, (0, 5 / 2)), (0, (0, 15 / 2)))] := by
    simp [edgeTriples, enumFromN, List.range_succ]
  rw [htr]
  simp only [processEdges, windFor, C1prov, alookup]
  simp

theorem C1_weight : (mkEdgeT 900 (0, (0, ((0 : ℝ), (5 / 2 : ℝ))),
      (0, ((0 : ℝ), (15 / 2 : ℝ)))) ⟨100, 270⟩).weight =
    R_EARTH_KM * (π / 36) / 1000 := by
  show haversine_km 0 (5 / 2) 0 (15 / 2) /
      max 40 (900 + tailwind_component_kmh 100 270
        (bearing_between 0 (5 / 2) 0 (15 / 2))) = _
  rw [bearing_equator, tailwind_100_270_90, haversine_equator_val]
  norm_num

theorem C1_heuristic : heuristic (0, 0) (1, 0)
      (build_graph [[(0, 5 / 2)], [(0, 15 / 2)]] 900 true C1prov) 900 =
    R_EARTH_KM * (π / 36) / 900 := by
  show haversine_km
      ((nlookup (nodesOf [[(0, 5 / 2)], [(0, 15 / 2)]]) (0, 0)).getD (0, 0)).1
      ((nlookup (nodesOf [[(0, 5 / 2)], [(0, 15 / 2)]]) (0, 0)).getD (0, 0)).2
      ((nlookup (nodesOf [[(0, 5 / 2)], [(0, 15 / 2)]]) (1, 0)).getD (0, 0)).1
      ((nlookup (nodesOf [[(0, 5 / 2)], [(0, 15 / 2)]]) (1, 0)).getD (0, 0)).2
      / 900 = _
  have h1 : nlookup (nodesOf [[((0 : ℝ), (5 / 2 : ℝ))], [(0, 15 / 2)]]) (0, 0)
      = some (0, 5 / 2) := by
    simp [nodesOf, enumFromN, nlookup]
  have h2 : nlookup (nodesOf [[((0 : ℝ), (5 / 2 : ℝ))], [(0, 15 / 2)]]) (1, 0)
      = some (0, 15 / 2) := by
    simp [nodesOf, enumFromN, nlookup]
  rw [h1, h2, Option.getD_some, Option.getD_some, haversine_equator_val]

/-- C1 (counterexample): the corridor from `(0, 0)` to `(0, 10)` along the
equator with 2 slices and offsets `[0]`, under a uniform 100 km/h westerly
wind (pure tailwind on the eastbound edge): the single path from the start
node to the goal node costs `R·(π/36)/1000` hours, strictly less than the
heuristic value `R·(π/36)/900` at the start node — the heuristic
overestimates the minimal remaining cost, so it is not admissible for all
wind configurations. -/
theorem C1_counterexample :
    build_corridor_slices 0 0 0 10 2 [0] = .ok [[(0, 5 / 2)], [(0, 15 / 2)]] ∧
    find_endpoints_nodes [[(0, 5 / 2)], [(0, 15 / 2)]] = .ok ((0, 0), (1, 0)) ∧
    ∃ c : ℝ, PathCost (build_graph [[(0, 5 / 2)], [(0, 15 / 2)]] 900 true
        C1prov).edges (1, 0) (0, 0) c ∧
      c < heuristic (0, 0) (1, 0)
        (build_graph [[(0, 5 / 2)], [(0, 15 / 2)]] 900 true C1prov) 900 := by
  refine ⟨bcs_equator10, by simp [find_endpoints_nodes], ?_⟩
  have hmem : mkEdgeT 900 (0, (0, ((0 : ℝ), (5 / 2 : ℝ))),
      (0, ((0 : ℝ), (15 / 2 : ℝ)))) ⟨100, 270⟩ ∈
      (build_graph [[(0, 5 / 2)], [(0, 15 / 2)]] 900 true C1prov).edges := by
    rw [C1_edges]
    exact List.mem_singleton.mpr rfl
  refine ⟨_, PathCost.step _ 0 hmem PathCost.refl, ?_⟩
  rw [C1_heuristic, C1_weight, add_zero]
  have hR : (0 : ℝ) < R_EARTH_KM := by norm_num [R_EARTH_KM]
  have hx : (0 : ℝ) < R_EARTH_KM * (π / 36) := by positivity
  exact div_lt_div_of_pos_left hx (by norm_num) (by norm_num)

/-! ## Claim C7: great-circle interpolation endpoints -/

theorem gcDelta_mem (lat1 lon1 lat2 lon2 : ℝ) :
    0 ≤ gcDelta lat1 lon1 lat2 lon2 ∧ gcDelta lat1 lon1 lat2 lon2 ≤ π := by
  unfold gcDelta
  have h0 : (0 : ℝ) ≤ min 1 (Real.sqrt
      (havA (deg2rad lat1) (deg2rad lon1) (deg2rad lat2) (deg2rad lon2))) :=
    le_min (by norm_num) (Real.sqrt_nonneg _)
  constructor
  · have := Real.arcsin_nonneg.mpr h0
    linarith
  · have := Real.arcsin_le_pi_div_two (min 1 (Real.sqrt
      (havA (deg2rad lat1) (deg2rad lon1) (deg2rad lat2) (deg2rad lon2))))
    linarith

theorem deg2rad_abs_lt {lat : ℝ} (h : |lat| < 90) : |deg2rad lat| < π / 2 := by
  rw [deg2rad, abs_div, abs_mul, abs_of_pos Real.pi_pos,
    show |(180 : ℝ)| = 180 by norm_num, div_lt_iff (by norm_num : (0:ℝ) < 180)]
  nlinarith [Real.pi_pos, abs_nonneg lat]

theorem deg2rad_mem_Ioc {lon : ℝ} (ha : -180 < lon) (hb : lon ≤ 180) :
    -π < deg2rad lon ∧ deg2rad lon ≤ π := by
  rw [deg2rad]
  constructor
  · nlinarith [Real.pi_pos]
  · nlinarith [Real.pi_pos]

theorem gcPoint_f_zero {phi1 lam1 phi2 lam2 dlt : ℝ} (hs : sin dlt ≠ 0)
    (hphi : |phi1| < π / 2) (hl1 : -π < lam1) (hl2 : lam1 ≤ π) :
    gcPoint phi1 lam1 phi2 lam2 dlt 0 = (rad2deg phi1, rad2deg lam1) := by
  have hcos : 0 < cos phi1 := by
    rw [abs_lt] at hphi
    exact Real.cos_pos_of_mem_Ioo ⟨hphi.1, hphi.2⟩
  simp only [gcPoint]
  rw [show (1 - 0 : ℝ) * dlt = dlt by ring, show (0 : ℝ) * dlt = 0 by ring,
    Real.sin_zero, zero_div, div_self hs]
  rw [show (1 : ℝ) * cos phi1 * cos lam1 + 0 * cos phi2 * cos lam2 =
      cos phi1 * cos lam1 by ring,
    show (1 : ℝ) * cos phi1 * sin lam1 + 0 * cos phi2 * sin lam2 =
      cos phi1 * sin lam1 by ring,
    show (1 : ℝ) * sin phi1 + 0 * sin phi2 = sin phi1 by ring]
  have hxy : cos phi1 * cos lam1 * (cos phi1 * cos lam1) +
      cos phi1 * sin lam1 * (cos phi1 * sin lam1) = cos phi1 * cos phi1 := by
    linear_combination (cos phi1 * cos phi1) * Real.sin_sq_add_cos_sq lam1
  rw [hxy, Real.sqrt_mul_self (le_of_lt hcos)]
  have hphi' : -π < phi1 ∧ phi1 ≤ π := by
    rw [abs_lt] at hphi
    constructor
    · linarith [Real.pi_pos]
    · linarith [Real.pi_pos]
  rw [atan2_sin_cos hphi'.1 hphi'.2, atan2_scale hcos, atan2_sin_cos hl1 hl2]

theorem gcPoint_f_one {phi1 lam1 phi2 lam2 dlt : ℝ} (hs : sin dlt ≠ 0)
    (hphi : |phi2| < π / 2) (hl1 : -π < lam2) (hl2 : lam2 ≤ π) :
    gcPoint phi1 lam1 phi2 lam2 dlt 1 = (rad2deg phi2, rad2deg lam2) := by
  have hcos : 0 < cos phi2 := by
    rw [abs_lt] at hphi
    exact Real.cos_pos_of_mem_Ioo ⟨hphi.1, hphi.2⟩
  simp only [gcPoint]
  rw [show (1 - 1 : ℝ) * dlt = 0 by ring, show (1 : ℝ) * dlt = dlt by ring,
    Real.sin_zero, zero_div, div_self hs]
  rw [show (0 : ℝ) * cos phi1 * cos lam1 + 1 * cos phi2 * cos lam2 =
      cos phi2 * cos lam2 by ring,
    show (0 : ℝ) * cos phi1 * sin lam1 + 1 * cos phi2 * sin lam2 =
      cos phi2 * sin lam2 by ring,
    show (0 : ℝ) * sin phi1 + 1 * sin phi2 = sin phi2 by ring]
  have hxy : cos phi2 * cos lam2 * (cos phi2 * cos lam2) +
      cos phi2 * sin lam2 * (cos phi2 * sin lam2) = cos phi2 * cos phi2 := by
    linear_combination (cos phi2 * cos phi2) * Real.sin_sq_add_cos_sq lam2
  rw [hxy, Real.sqrt_mul_self (le_of_lt hcos)]
  have hphi' : -π < phi2 ∧ phi2 ≤ π := by
    rw [abs_lt] at hphi
    constructor
    · linarith [Real.pi_pos]
    · linarith [Real.pi_pos]
  rw [atan2_sin_cos hphi'.1 hphi'.2, atan2_scale hcos, atan2_sin_cos hl1 hl2]

theorem map_range_head? (f : ℕ → Pt) (n : ℕ) :
    ((List.range (n + 1)).map f).head? = some (f 0) := by
  rw [List.range_succ_eq_map]
  simp

theorem map_range_getLast? (f : ℕ → Pt) (n : ℕ) :
    ((List.range (n + 1)).map f).getLast? = some (f n) := by
  rw [List.range_succ, List.map_append]
  simp

/-- C7: for `n ≥ 1` and valid coordinates (latitudes in `[-90, 90]`,
longitudes in `(-180, 180]`), `great_circle_points` returns exactly `n + 1`
points; when the two inputs are equal it returns `n + 1` copies of the
first; and whenever the central angle `δ` avoids the exact degeneracies `0`
and `π` and neither endpoint sits exactly at a pole, the first point equals
the first input and the last point equals the second input exactly —
stronger than the floating tolerance the claim allows.  (On the excluded
degenerate set the real-number idealization divides by `sin δ = 0` or
evaluates `atan2 0 0`; the floating-point program never lands exactly on
those values — `sin` of the float `π` and `cos` of the float `radians(90)`
are tiny but nonzero — so its generic interpolation branch applies there
too and returns the endpoints to within rounding.) -/
theorem C7_great_circle_points (lat1 lon1 lat2 lon2 : ℝ) (n : ℕ) (hn : 1 ≤ n)
    (h1 : |lat1| ≤ 90) (h2 : |lat2| ≤ 90)
    (hlon1a : -180 < lon1) (hlon1b : lon1 ≤ 180)
    (hlon2a : -180 < lon2) (hlon2b : lon2 ≤ 180) :
    ∃ pts, great_circle_points lat1 lon1 lat2 lon2 n = .ok pts ∧
      pts.length = n + 1 ∧
      (((lat1, lon1) : Pt) = (lat2, lon2) →
        pts = List.replicate (n + 1) (lat1, lon1)) ∧
      (gcDelta lat1 lon1 lat2 lon2 ≠ 0 → gcDelta lat1 lon1 lat2 lon2 ≠ π →
        |lat1| < 90 → |lat2| < 90 →
        pts.head? = some (lat1, lon1) ∧ pts.getLast? = some (lat2, lon2)) := by
  rcases eq_or_ne (gcDelta lat1 lon1 lat2 lon2) 0 with hd | hd
  · refine ⟨List.replicate (n + 1) (lat1, lon1), ?_,
      List.length_replicate _ _, fun _ => rfl, ?_⟩
    · simp only [great_circle_points]
      rw [if_pos hd]
    · intro h0 _ _ _
      exact absurd hd h0
  · refine ⟨(List.range (n + 1)).map fun (i : ℕ) =>
      gcPoint (deg2rad lat1) (deg2rad lon1) (deg2rad lat2) (deg2rad lon2)
        (gcDelta lat1 lon1 lat2 lon2) ((i : ℝ) / (n : ℝ)), ?_,
      by rw [List.length_map, List.length_range], ?_, ?_⟩
    · simp only [great_circle_points]
      rw [if_neg hd, if_neg (by omega)]
    · intro heq
      exfalso
      apply hd
      have e1 : lat1 = lat2 := congrArg Prod.fst heq
      have e2 : lon1 = lon2 := congrArg Prod.snd heq
      rw [← e1, ← e2]
      exact gcDelta_self lat1 lon1
    · intro hd0 hdpi hs1 hs2
      have hmem := gcDelta_mem lat1 lon1 lat2 lon2
      have hsin : sin (gcDelta lat1 lon1 lat2 lon2) ≠ 0 := by
        apply ne_of_gt
        apply Real.sin_pos_of_pos_of_lt_pi
        · rcases lt_or_eq_of_le hmem.1 with h | h
          · exact h
          · exact absurd h.symm hd0
        · rcases lt_or_eq_of_le hmem.2 with h | h
          · exact h
          · exact absurd h hdpi
      have hm1 := deg2rad_mem_Ioc hlon1a hlon1b
      have hm2 := deg2rad_mem_Ioc hlon2a hlon2b
      constructor
      · rw [map_range_head?]
        rw [show ((0 : ℕ) : ℝ) / (n : ℝ) = 0 by norm_num]
        rw [gcPoint_f_zero hsin (deg2rad_abs_lt hs1) hm1.1 hm1.2]
        rw [rad2deg_deg2rad, rad2deg_deg2rad]
      · rw [map_range_getLast?]
        rw [show ((n : ℕ) : ℝ) / (n : ℝ) = 1 by
          rw [div_self]
          exact_mod_cast (by omega : n ≠ 0)]
        rw [gcPoint_f_one hsin (deg2rad_abs_lt hs2) hm2.1 hm2.2]
        rw [rad2deg_deg2rad, rad2deg_deg2rad]

/-- C7 witness: the theorem applied to the concrete equatorial corridor
`(0, 0) → (0, 10)` with `n = 2` (all hypotheses discharged at concrete
values). -/
theorem C7_great_circle_points_witness :
    (1 : ℕ) ≤ 2 ∧
    ∃ pts, great_circle_points 0 0 0 10 2 = .ok pts ∧
      pts.length = 2 + 1 ∧
      (((0, 0) : Pt) = (0, 10) → pts = List.replicate (2 + 1) (0, 0)) ∧
      (gcDelta 0 0 0 10 ≠ 0 → gcDelta 0 0 0 10 ≠ π →
        |(0 : ℝ)| < 90 → |(0 : ℝ)| < 90 →
        pts.head? = some (0, 0) ∧ pts.getLast? = some (0, 10)) :=
  ⟨by norm_num, C7_great_circle_points 0 0 0 10 2 (by norm_num) (by norm_num) (by norm_num)
    (by norm_num) (by norm_num) (by norm_num) (by norm_num)⟩

/-- C3 witness: the amended theorem applied at concrete inputs discharging
each hypothesis — coincident endpoints (central angle `0`) and the
equatorial pair `(0,0) → (0,10)` (central angle `π/18 ≠ 0`) for the
slice-count-0 branches, and slice count `2` for the empty-offsets
branch. -/
theorem C3_amended_witness :
    (gcDelta 0 0 0 0 = 0 ∧
     run_optimization 0 0 0 0 0 [-100, 0, 100] 900 false (fun _ _ => none) =
       .error .indexError) ∧
    (gcDelta 0 0 0 10 ≠ 0 ∧
     run_optimization 0 0 0 10 0 [-100, 0, 100] 900 false (fun _ _ => none) =
       .error .zeroDivision) ∧
    ((1 : ℕ) ≤ 2 ∧
     run_optimization 0 0 0 0 2 [] 900 false (fun _ _ => none) =
       .error .astarFailed) := by
  have h0 : gcDelta 0 0 0 0 = 0 := gcDelta_self 0 0
  have h10 : gcDelta 0 0 0 10 ≠ 0 := by
    rw [gcDelta_equator10]
    positivity
  exact ⟨⟨h0, (C3_amended.1 0 0 0 0 [-100, 0, 100] 900 false _).1 h0⟩,
    ⟨h10, (C3_amended.1 0 0 0 10 [-100, 0, 100] 900 false _).2 h10⟩,
    ⟨by norm_num, C3_amended.2 0 0 0 0 2 900 false _ (by norm_num)⟩⟩
